import Mathlib

set_option maxRecDepth 8000

/-!
Verification of the cryptpdf library (PDF AES-256 Rev 5 encryption/decryption).

Shallow embedding of the TypeScript sources:
  - src/crypto.ts   : block-cipher wrappers over the platform primitive
                      (AES-256-CBC with PKCS#7 via Web Crypto), including the
                      ECB-via-CBC two-block workaround,
  - src/kdf.ts      : Rev 5 key derivation (computeRev5Keys) and key recovery
                      (deriveFileKeyFromPassword),
  - src/saslprep.ts : password preparation,
  - src/encrypt.ts  : object-graph walker building the Encrypt dictionary,
  - src/decrypt.ts  : object-graph walker recovering plaintext payloads.

Bytes are modelled as `Nat`, byte strings as `List Nat`.  The platform AES-256
block permutation is abstract: a `Cipher` parameter supplies the forward and
inverse 16-byte block maps; theorems assume only that the inverse undoes the
forward map on 16-byte blocks and that both preserve block length.  The
platform padded CBC mode (Web Crypto `AES-CBC`) is modelled from the spec on
top of that block map.  Randomness (`crypto.getRandomValues`) is modelled as an
explicit entropy state threaded through the computation.  Strings produced by
the walkers keep their byte content (the source converts bytes to hex text and
back; that pairing is the identity on byte content).  Each JavaScript `throw`
site is a distinct constructor of `PDFError`.
-/

/-- Error outcomes.  Each constructor corresponds to one `throw` site (one
distinct `Error` message) in the sources. -/
inductive PDFError where
  /-- crypto.ts aes256CbcEncryptNoPadding / aes256CbcDecryptNoPadding:
  "length must be multiple of 16; IV must be 16 bytes". -/
  | invalidBlockLength
  /-- crypto.ts aes256CbcEncrypt / aes256CbcDecrypt:
  "AES-256-CBC: key must be 32 bytes, IV 16 bytes". -/
  | badKeyIv
  /-- crypto.ts aes256CbcDecrypt: "ciphertext length must be multiple of 16". -/
  | ctNotBlockMultiple
  /-- The platform padded CBC decrypt rejecting malformed PKCS#7 padding
  (Web Crypto OperationError). -/
  | paddingInvalid
  /-- crypto.ts aes256EcbEncrypt / aes256EcbDecrypt:
  "AES-256-ECB: 16-byte block, 32-byte key". -/
  | badEcbArgs
  /-- decrypt.ts decryptObject: "Encrypted object too short". -/
  | tooShort
  /-- decrypt.ts decryptPDF: "PDF is not encrypted". -/
  | notEncrypted
  /-- decrypt.ts decryptPDF: "Invalid Encrypt dictionary". -/
  | invalidEncryptDict
  /-- decrypt.ts decryptPDF: "Unsupported encryption: R=..., V=...". -/
  | unsupportedEncryption (r v : Int)
  /-- decrypt.ts decryptPDF: "Invalid Encrypt dictionary: O=..., U=..., OE=..., UE=..."
  (missing field or wrong field length). -/
  | invalidEncryptLengths
  /-- decrypt.ts decryptPDF: "Wrong password". -/
  | wrongPassword
  deriving Repr, DecidableEq

/-- The abstract AES-256 block permutation supplied by the platform:
`enc key block` and `dec key block` on 16-byte blocks with a 32-byte key. -/
structure Cipher where
  enc : List Nat → List Nat → List Nat
  dec : List Nat → List Nat → List Nat

/-- Entropy state for `crypto.getRandomValues`: a pool of bytes and a read
offset.  Draws past the pool yield 0; values are reduced mod 256 so that every
draw is a byte. -/
structure Ent where
  pool : List Nat
  off : Nat
  deriving Repr, DecidableEq

/-- crypto.ts getRandomBytes: returns `length` fresh bytes and advances the
entropy state.  (The platform check for a missing entropy source is not
modelled; the model always has a source.) -/
def getRandomBytes (length : Nat) (e : Ent) : List Nat × Ent :=
  ((List.range length).map (fun i => e.pool.getD (e.off + i) 0 % 256),
   { pool := e.pool, off := e.off + length })

/-- 16 zero bytes (`new Uint8Array(16)`, used as all-zero IV). -/
def zero16 : List Nat := List.replicate 16 0

/-- A full PKCS#7 padding block (`new Uint8Array(16).fill(16)`). -/
def fullPad16 : List Nat := List.replicate 16 16

/-- crypto.ts xor16: byte-wise XOR of two 16-byte blocks. -/
def xor16 (a b : List Nat) : List Nat :=
  List.zipWith (fun x y => x ^^^ y) a b

/-- PKCS#7 padding to a 16-byte block boundary: append `k` copies of the byte
`k`, where `k = 16 - len mod 16` (a full extra block when `len` is already a
multiple of 16).  Part of the platform padded-CBC model. -/
def pad16 (m : List Nat) : List Nat :=
  m ++ List.replicate (16 - m.length % 16) (16 - m.length % 16)

/-- PKCS#7 unpadding: read the last byte `j`, require `1 ≤ j ≤ 16` and that the
last `j` bytes all equal `j`, and strip them; otherwise fail.  Part of the
platform padded-CBC model. -/
def unpad16 (m : List Nat) : Option (List Nat) :=
  match m.getLast? with
  | none => none
  | some j =>
    if 1 ≤ j ∧ j ≤ 16 ∧ j ≤ m.length ∧ m.drop (m.length - j) = List.replicate j j then
      some (m.take (m.length - j))
    else none

/-- Raw CBC encryption of `n` 16-byte blocks of `m`, chaining from `prev`. -/
def cbcEncRawN (A : Cipher) (key : List Nat) : Nat → List Nat → List Nat → List Nat
  | 0, _, _ => []
  | n + 1, prev, m =>
    let c := A.enc key (xor16 prev (m.take 16))
    c ++ cbcEncRawN A key n c (m.drop 16)

/-- Raw CBC decryption of `n` 16-byte blocks of `ct`, chaining from `prev`. -/
def cbcDecRawN (A : Cipher) (key : List Nat) : Nat → List Nat → List Nat → List Nat
  | 0, _, _ => []
  | n + 1, prev, ct =>
    let blk := ct.take 16
    xor16 prev (A.dec key blk) ++ cbcDecRawN A key n blk (ct.drop 16)

/-- Modelled from the spec: the platform padded chained-block encrypt
(`crypto.subtle.encrypt` with AES-CBC, §4.1 `paddedEncrypt`): PKCS#7-pad the
plaintext and CBC-encrypt it under the abstract block map.  The platform
implementation itself is not part of this repository. -/
def subtleCbcEncrypt (A : Cipher) (key iv m : List Nat) : List Nat :=
  cbcEncRawN A key ((pad16 m).length / 16) iv (pad16 m)

/-- Modelled from the spec: the platform padded chained-block decrypt
(`crypto.subtle.decrypt` with AES-CBC, §4.1 `paddedDecrypt`): CBC-decrypt and
strip PKCS#7 padding, failing on empty input, a non-block-multiple length, or
malformed padding. -/
def subtleCbcDecrypt (A : Cipher) (key iv ct : List Nat) : Option (List Nat) :=
  if ct.length = 0 ∨ ct.length % 16 ≠ 0 then none
  else unpad16 (cbcDecRawN A key (ct.length / 16) iv ct)

/-- crypto.ts aes256CbcEncrypt: AES-256-CBC with PKCS#7 padding (delegated to
the platform); rejects a key that is not 32 bytes or an IV that is not
16 bytes. -/
def aes256CbcEncrypt (A : Cipher) (key iv plaintext : List Nat) :
    Except PDFError (List Nat) :=
  if key.length ≠ 32 ∨ iv.length ≠ 16 then .error .badKeyIv
  else .ok (subtleCbcEncrypt A key iv plaintext)

/-- crypto.ts aes256CbcDecrypt: AES-256-CBC decrypt with PKCS#7 unpadding
(delegated to the platform); rejects bad key/IV lengths and a ciphertext whose
length is not a multiple of 16. -/
def aes256CbcDecrypt (A : Cipher) (key iv ciphertext : List Nat) :
    Except PDFError (List Nat) :=
  if key.length ≠ 32 ∨ iv.length ≠ 16 then .error .badKeyIv
  else if ciphertext.length % 16 ≠ 0 then .error .ctNotBlockMultiple
  else
    match subtleCbcDecrypt A key iv ciphertext with
    | some m => .ok m
    | none => .error .paddingInvalid

/-- crypto.ts aes256EcbEncrypt: one unpadded block.  The platform only exposes
padded CBC, so the source encrypts the block with a zero IV and keeps the first
16 output bytes (dropping the encrypted padding block). -/
def aes256EcbEncrypt (A : Cipher) (key block : List Nat) :
    Except PDFError (List Nat) :=
  if block.length ≠ 16 ∨ key.length ≠ 32 then .error .badEcbArgs
  else .ok ((subtleCbcEncrypt A key zero16 block).take 16)

/-- crypto.ts aes256EcbDecrypt: one unpadded block via the two-block trick.
A second ciphertext block `c2 = EcbEncrypt(key, fullPad16 XOR block)` is
appended so that padded CBC decryption of `block ++ c2` with a zero IV yields
the wanted plaintext followed by a valid full padding block, which the
platform unpadding strips. -/
def aes256EcbDecrypt (A : Cipher) (key block : List Nat) :
    Except PDFError (List Nat) :=
  if block.length ≠ 16 ∨ key.length ≠ 32 then .error .badEcbArgs
  else
    match aes256EcbEncrypt A key (xor16 fullPad16 block) with
    | .error err => .error err
    | .ok c2 =>
      match subtleCbcDecrypt A key zero16 (block ++ c2) with
      | some m => .ok m
      | none => .error .paddingInvalid

/-- Block loop of crypto.ts aes256CbcEncryptNoPadding: chain
`aes256EcbEncrypt` across `n` 16-byte blocks. -/
def cbcEncNoPadLoop (A : Cipher) (key : List Nat) :
    Nat → List Nat → List Nat → Except PDFError (List Nat)
  | 0, _, _ => .ok []
  | n + 1, prev, m =>
    match aes256EcbEncrypt A key (xor16 prev (m.take 16)) with
    | .error err => .error err
    | .ok c =>
      match cbcEncNoPadLoop A key n c (m.drop 16) with
      | .error err => .error err
      | .ok rest => .ok (c ++ rest)

/-- crypto.ts aes256CbcEncryptNoPadding: CBC without padding for exact block
multiples, built from the single-block primitive. -/
def aes256CbcEncryptNoPadding (A : Cipher) (key iv plaintext : List Nat) :
    Except PDFError (List Nat) :=
  if plaintext.length % 16 ≠ 0 ∨ iv.length ≠ 16 then .error .invalidBlockLength
  else cbcEncNoPadLoop A key (plaintext.length / 16) iv plaintext

/-- Block loop of crypto.ts aes256CbcDecryptNoPadding: chain
`aes256EcbDecrypt` across `n` 16-byte blocks. -/
def cbcDecNoPadLoop (A : Cipher) (key : List Nat) :
    Nat → List Nat → List Nat → Except PDFError (List Nat)
  | 0, _, _ => .ok []
  | n + 1, prev, ct =>
    match aes256EcbDecrypt A key (ct.take 16) with
    | .error err => .error err
    | .ok dec =>
      match cbcDecNoPadLoop A key n (ct.take 16) (ct.drop 16) with
      | .error err => .error err
      | .ok rest => .ok (xor16 prev dec ++ rest)

/-- crypto.ts aes256CbcDecryptNoPadding: CBC decryption without padding for
exact block multiples. -/
def aes256CbcDecryptNoPadding (A : Cipher) (key iv ciphertext : List Nat) :
    Except PDFError (List Nat) :=
  if ciphertext.length % 16 ≠ 0 ∨ iv.length ≠ 16 then .error .invalidBlockLength
  else cbcDecNoPadLoop A key (ciphertext.length / 16) iv ciphertext

/-- saslprep.ts preparePassword: canonical password bytes, truncated to the
first 127 bytes when longer.  (The UTF-8 encoding step is the identity here
because passwords are already modelled as byte sequences.) -/
def preparePassword (password : List Nat) : List Nat :=
  if password.length > 127 then password.take 127 else password

/-- kdf.ts compareBytes: 0 iff same length and pointwise equal, else 1. -/
def compareBytes (a b : List Nat) : Nat :=
  if a = b then 0 else 1

/-- kdf.ts Rev5Keys: all computed Encrypt dictionary values plus the file
encryption key. -/
structure Rev5Keys where
  fileEncryptionKey : List Nat
  O : List Nat
  U : List Nat
  OE : List Nat
  UE : List Nat
  Perms : List Nat
  deriving Repr, DecidableEq

/-- kdf.ts Rev5EncryptParams. -/
structure Rev5EncryptParams where
  userPassword : List Nat
  ownerPassword : List Nat
  permissions : Int
  encryptMetadata : Bool
  deriving Repr, DecidableEq

/-- The 16-byte permissions block of kdf.ts computeRev5Keys (Algorithm 3.10):
`p = permissions >>> 0` as an unsigned 32-bit value, laid out little-endian in
bytes 0-3 (`p & 0xFF`, `(p >> 8) & 0xFF`, ...), then four 0xFF bytes, the
metadata flag byte 'T' (0x54) or 'F' (0x46), the tag 'a','d','b', and 4 random
bytes. -/
def permsBlockSrc (permissions : Int) (encryptMetadata : Bool) (rnd : List Nat) :
    List Nat :=
  let p : Nat := (permissions.emod 4294967296).toNat
  [p &&& 255, (p >>> 8) &&& 255, (p >>> 16) &&& 255, (p >>> 24) &&& 255,
   255, 255, 255, 255,
   if encryptMetadata then 84 else 70,
   97, 100, 98] ++ rnd

/-- kdf.ts computeRev5Keys: Algorithms 3.8 (U/UE), 3.9 (O/OE), 3.10 (Perms).
`H` is the platform SHA-256 digest (abstract). -/
def computeRev5Keys (A : Cipher) (H : List Nat → List Nat)
    (params : Rev5EncryptParams) (e0 : Ent) : Except PDFError (Rev5Keys × Ent) :=
  let userPwd := preparePassword params.userPassword
  let ownerPwd := preparePassword
    (if params.ownerPassword = [] then params.userPassword else params.ownerPassword)
  let fileEncryptionKey := (getRandomBytes 32 e0).1
  let e1 := (getRandomBytes 32 e0).2
  let userValSalt := (getRandomBytes 8 e1).1
  let e2 := (getRandomBytes 8 e1).2
  let userKeySalt := (getRandomBytes 8 e2).1
  let e3 := (getRandomBytes 8 e2).2
  let uHash := H (userPwd ++ userValSalt)
  let U := uHash ++ userValSalt ++ userKeySalt
  let ueKey := H (userPwd ++ userKeySalt)
  match aes256CbcEncryptNoPadding A ueKey zero16 fileEncryptionKey with
  | .error err => .error err
  | .ok UE =>
    let ownerValSalt := (getRandomBytes 8 e3).1
    let e4 := (getRandomBytes 8 e3).2
    let ownerKeySalt := (getRandomBytes 8 e4).1
    let e5 := (getRandomBytes 8 e4).2
    let oHash := H (ownerPwd ++ ownerValSalt ++ U)
    let O := oHash ++ ownerValSalt ++ ownerKeySalt
    let oeKey := H (ownerPwd ++ ownerKeySalt ++ U)
    match aes256CbcEncryptNoPadding A oeKey zero16 fileEncryptionKey with
    | .error err => .error err
    | .ok OE =>
      let rnd := (getRandomBytes 4 e5).1
      let e6 := (getRandomBytes 4 e5).2
      match aes256EcbEncrypt A fileEncryptionKey
          (permsBlockSrc params.permissions params.encryptMetadata rnd) with
      | .error err => .error err
      | .ok Perms =>
        .ok ({ fileEncryptionKey := fileEncryptionKey, O := O, U := U,
               OE := OE, UE := UE, Perms := Perms }, e6)

/-- kdf.ts deriveFileKeyFromPassword: try the user password
(`SHA-256(pwd ∥ U[32:40])` against `U[0:32]`, then unwrap `UE`), then the owner
password (`SHA-256(pwd ∥ O[32:40] ∥ U)` against `O[0:32]`, then unwrap `OE`);
`none` when neither matches (reported as "Wrong password" by the caller). -/
def deriveFileKeyFromPassword (A : Cipher) (H : List Nat → List Nat)
    (password U O OE UE : List Nat) : Option (List Nat) :=
  let pwd := preparePassword password
  let userValSalt := (U.drop 32).take 8
  let userKeySalt := (U.drop 40).take 8
  let uCheck := H (pwd ++ userValSalt)
  let userAttempt : Option (List Nat) :=
    if compareBytes uCheck (U.take 32) = 0 then
      match aes256CbcDecryptNoPadding A (H (pwd ++ userKeySalt)) zero16 UE with
      | .ok key => if key.length = 32 then some key else none
      | .error _ => none
    else none
  match userAttempt with
  | some key => some key
  | none =>
    let ownerValSalt := (O.drop 32).take 8
    let ownerKeySalt := (O.drop 40).take 8
    let oCheck := H (pwd ++ ownerValSalt ++ U)
    if compareBytes oCheck (O.take 32) = 0 then
      match aes256CbcDecryptNoPadding A (H (pwd ++ ownerKeySalt ++ U)) zero16 OE with
      | .ok key => if key.length = 32 then some key else none
      | .error _ => none
    else none

/-!
## Document object model

pdf-lib's object graph (the external document-model collaborator) is modelled
as a graph of typed nodes.  `PDFObject.stream` is a `PDFRawStream` (a stream is
NOT an instance of `PDFDict` in pdf-lib, so the walkers' `instanceof PDFDict`
tests are false on it); `string`/`hexString` are `PDFString`/`PDFHexString`
(both expose their byte content via `asBytes`, and the walkers store results as
hex strings — modelled by keeping the byte content).  Dictionary keys are the
PDF name text without the leading slash that pdf-lib's `asString` prepends, so
the source's comparisons with '/Length', '/Filter', '/DecodeParms' and
'/Standard' become comparisons with "Length", "Filter", "DecodeParms" and
"Standard".
-/

mutual

inductive PDFObject where
  | stream (dict : PDFEntries) (contents : List Nat)
  | dict (entries : PDFEntries)
  | array (elems : PDFObjList)
  | string (bytes : List Nat)
  | hexString (bytes : List Nat)
  | name (s : String)
  | number (n : Int)
  | boolean (b : Bool)
  | null
  deriving Repr, DecidableEq

inductive PDFEntries where
  | nil
  | cons (key : String) (val : PDFObject) (rest : PDFEntries)
  deriving Repr, DecidableEq

inductive PDFObjList where
  | nil
  | cons (head : PDFObject) (rest : PDFObjList)
  deriving Repr, DecidableEq

end

/-- Dictionary lookup (pdf-lib `dict.get(PDFName.of(key))`): first entry with
the given key. -/
def PDFEntries.lookupKey : PDFEntries → String → Option PDFObject
  | .nil, _ => none
  | .cons k v rest, key => if k = key then some v else rest.lookupKey key

/-- A document: the enumerated indirect objects, the trailer's `Encrypt`
reference (an index into `objects`), and the trailer's file ID. -/
structure Doc where
  objects : List PDFObject
  trailerEncrypt : Option Nat
  trailerID : Option (List Nat)
  deriving Repr, DecidableEq

/-- encrypt.ts EncryptOptions. -/
structure EncryptOptions where
  permissions : Option Int
  encryptMetadata : Option Bool
  deriving Repr, DecidableEq

/-- encrypt.ts encryptObject: draw a fresh 16-byte IV and prepend it to the
padded CBC encryption of `data` under `fileKey`. -/
def encryptObject (A : Cipher) (data fileKey : List Nat) (e : Ent) :
    Except PDFError (List Nat × Ent) :=
  let iv := (getRandomBytes 16 e).1
  let e1 := (getRandomBytes 16 e).2
  match aes256CbcEncrypt A fileKey iv data with
  | .error err => .error err
  | .ok ciphertext => .ok (iv ++ ciphertext, e1)

/-- decrypt.ts decryptObject: split off the 16-byte IV and decrypt the rest;
fails with `tooShort` when the payload is shorter than 32 bytes. -/
def decryptObject (A : Cipher) (data fileKey : List Nat) :
    Except PDFError (List Nat) :=
  if data.length < 16 + 16 then .error .tooShort
  else aes256CbcDecrypt A fileKey (data.take 16) (data.drop 16)

mutual

/-- encrypt.ts encryptStringsInDict: walk the entries, skipping the reserved
keys Length/Filter/DecodeParms; replace string values with the hex string of
their encrypted bytes; recurse into dictionary and array values. -/
def encryptStringsInDict (A : Cipher) (fileKey : List Nat) :
    PDFEntries → Ent → Except PDFError (PDFEntries × Ent)
  | .nil, e => .ok (.nil, e)
  | .cons k v rest, e =>
    if k = "Length" ∨ k = "Filter" ∨ k = "DecodeParms" then
      match encryptStringsInDict A fileKey rest e with
      | .ok (r, e1) => .ok (.cons k v r, e1)
      | .error err => .error err
    else
      match v with
      | .string b =>
        match encryptObject A b fileKey e with
        | .ok (c, e1) =>
          match encryptStringsInDict A fileKey rest e1 with
          | .ok (r, e2) => .ok (.cons k (.hexString c) r, e2)
          | .error err => .error err
        | .error err => .error err
      | .hexString b =>
        match encryptObject A b fileKey e with
        | .ok (c, e1) =>
          match encryptStringsInDict A fileKey rest e1 with
          | .ok (r, e2) => .ok (.cons k (.hexString c) r, e2)
          | .error err => .error err
        | .error err => .error err
      | .dict es =>
        match encryptStringsInDict A fileKey es e with
        | .ok (es2, e1) =>
          match encryptStringsInDict A fileKey rest e1 with
          | .ok (r, e2) => .ok (.cons k (.dict es2) r, e2)
          | .error err => .error err
        | .error err => .error err
      | .array els =>
        match encryptStringsInArray A fileKey els e with
        | .ok (els2, e1) =>
          match encryptStringsInDict A fileKey rest e1 with
          | .ok (r, e2) => .ok (.cons k (.array els2) r, e2)
          | .error err => .error err
        | .error err => .error err
      | v2 =>
        match encryptStringsInDict A fileKey rest e with
        | .ok (r, e1) => .ok (.cons k v2 r, e1)
        | .error err => .error err

/-- encrypt.ts encryptStringsInArray: recurse into dictionary and array
elements; other elements (including strings) are left unchanged. -/
def encryptStringsInArray (A : Cipher) (fileKey : List Nat) :
    PDFObjList → Ent → Except PDFError (PDFObjList × Ent)
  | .nil, e => .ok (.nil, e)
  | .cons (.dict es) rest, e =>
    match encryptStringsInDict A fileKey es e with
    | .ok (es2, e1) =>
      match encryptStringsInArray A fileKey rest e1 with
      | .ok (r, e2) => .ok (.cons (.dict es2) r, e2)
      | .error err => .error err
    | .error err => .error err
  | .cons (.array els) rest, e =>
    match encryptStringsInArray A fileKey els e with
    | .ok (els2, e1) =>
      match encryptStringsInArray A fileKey rest e1 with
      | .ok (r, e2) => .ok (.cons (.array els2) r, e2)
      | .error err => .error err
    | .error err => .error err
  | .cons o rest, e =>
    match encryptStringsInArray A fileKey rest e with
    | .ok (r, e1) => .ok (.cons o r, e1)
    | .error err => .error err

end

mutual

/-- decrypt.ts decryptStringsInDict: walk the entries, skipping the reserved
keys; for string values of at least 32 bytes attempt `decryptObject`, storing
the result as a hex string and keeping the original value when decryption
fails; shorter strings are left untouched; recurse into dictionaries and
arrays.  (No failure escapes this walker: per-string failures are swallowed.) -/
def decryptStringsInDict (A : Cipher) (fileKey : List Nat) :
    PDFEntries → PDFEntries
  | .nil => .nil
  | .cons k v rest =>
    if k = "Length" ∨ k = "Filter" ∨ k = "DecodeParms" then
      .cons k v (decryptStringsInDict A fileKey rest)
    else
      match v with
      | .string b =>
        if b.length < 16 + 16 then .cons k (.string b) (decryptStringsInDict A fileKey rest)
        else
          match decryptObject A b fileKey with
          | .ok m => .cons k (.hexString m) (decryptStringsInDict A fileKey rest)
          | .error _ => .cons k (.string b) (decryptStringsInDict A fileKey rest)
      | .hexString b =>
        if b.length < 16 + 16 then .cons k (.hexString b) (decryptStringsInDict A fileKey rest)
        else
          match decryptObject A b fileKey with
          | .ok m => .cons k (.hexString m) (decryptStringsInDict A fileKey rest)
          | .error _ => .cons k (.hexString b) (decryptStringsInDict A fileKey rest)
      | .dict es => .cons k (.dict (decryptStringsInDict A fileKey es)) (decryptStringsInDict A fileKey rest)
      | .array els => .cons k (.array (decryptStringsInArray A fileKey els)) (decryptStringsInDict A fileKey rest)
      | v2 => .cons k v2 (decryptStringsInDict A fileKey rest)

/-- decrypt.ts decryptStringsInArray: recurse into dictionary and array
elements; other elements are left unchanged. -/
def decryptStringsInArray (A : Cipher) (fileKey : List Nat) :
    PDFObjList → PDFObjList
  | .nil => .nil
  | .cons (.dict es) rest =>
    .cons (.dict (decryptStringsInDict A fileKey es)) (decryptStringsInArray A fileKey rest)
  | .cons (.array els) rest =>
    .cons (.array (decryptStringsInArray A fileKey els)) (decryptStringsInArray A fileKey rest)
  | .cons o rest => .cons o (decryptStringsInArray A fileKey rest)

end

/-- The /Filter name test shared by both top-level walkers: the dictionary's
`Filter` entry is the name `/Standard`.  (A non-name `Filter` value does not
match: pdf-lib's `asString` on a name yields '/Standard' and on other
string-like objects yields text without the slash.) -/
def filterIsStandard (entries : PDFEntries) : Bool :=
  match entries.lookupKey "Filter" with
  | some (.name s) => s = "Standard"
  | _ => false

/-- The skip test of both top-level walkers (`obj instanceof PDFDict` and
`Filter` equal to the name `/Standard`).  Streams are not `PDFDict` instances,
so they are never subject to the test. -/
def skipsCryptoWalk : PDFObject → Bool
  | .dict entries => filterIsStandard entries
  | _ => false

/-- One iteration of the encrypt.ts top-level walker over an indirect object:
skip dictionaries whose `Filter` is `/Standard`; encrypt stream contents (the
stream's own dictionary entries are not walked, since a stream is neither a
`PDFDict` nor a `PDFArray`); walk dictionaries and arrays. -/
def encryptIndirectObject (A : Cipher) (fileKey : List Nat) (obj : PDFObject)
    (e : Ent) : Except PDFError (PDFObject × Ent) :=
  if skipsCryptoWalk obj then .ok (obj, e)
  else
    match obj with
    | .stream d c =>
      match encryptObject A c fileKey e with
      | .ok (c2, e1) => .ok (.stream d c2, e1)
      | .error err => .error err
    | .dict es =>
      match encryptStringsInDict A fileKey es e with
      | .ok (es2, e1) => .ok (.dict es2, e1)
      | .error err => .error err
    | .array els =>
      match encryptStringsInArray A fileKey els e with
      | .ok (els2, e1) => .ok (.array els2, e1)
      | .error err => .error err
    | o => .ok (o, e)

/-- One iteration of the decrypt.ts top-level walker: same skip test; stream
contents are decrypted with `decryptObject` (a failure here is fatal and
propagates); dictionaries and arrays are walked with the failure-swallowing
string walker. -/
def decryptIndirectObject (A : Cipher) (fileKey : List Nat) (obj : PDFObject) :
    Except PDFError PDFObject :=
  if skipsCryptoWalk obj then .ok obj
  else
    match obj with
    | .stream d c =>
      match decryptObject A c fileKey with
      | .ok c2 => .ok (.stream d c2)
      | .error err => .error err
    | .dict es => .ok (.dict (decryptStringsInDict A fileKey es))
    | .array els => .ok (.array (decryptStringsInArray A fileKey els))
    | o => .ok o

/-- encrypt.ts: the loop over `context.enumerateIndirectObjects()`. -/
def encryptAllObjects (A : Cipher) (fileKey : List Nat) :
    List PDFObject → Ent → Except PDFError (List PDFObject × Ent)
  | [], e => .ok ([], e)
  | obj :: rest, e =>
    match encryptIndirectObject A fileKey obj e with
    | .ok (obj2, e1) =>
      match encryptAllObjects A fileKey rest e1 with
      | .ok (r, e2) => .ok (obj2 :: r, e2)
      | .error err => .error err
    | .error err => .error err

/-- decrypt.ts: the loop over `context.enumerateIndirectObjects()`. -/
def decryptAllObjects (A : Cipher) (fileKey : List Nat) :
    List PDFObject → Except PDFError (List PDFObject)
  | [] => .ok []
  | obj :: rest =>
    match decryptIndirectObject A fileKey obj with
    | .ok obj2 =>
      match decryptAllObjects A fileKey rest with
      | .ok r => .ok (obj2 :: r)
      | .error err => .error err
    | .error err => .error err

/-- The entries of the Encrypt dictionary built by encrypt.ts encryptPDF
(Rev 5, AESV3). -/
def buildEncryptEntries (keys : Rev5Keys) (permissions : Int)
    (encryptMetadata : Bool) : PDFEntries :=
    (.cons "Filter" (.name "Standard")
    (.cons "V" (.number 5)
    (.cons "R" (.number 5)
    (.cons "Length" (.number 256)
    (.cons "P" (.number permissions)
    (.cons "O" (.hexString keys.O)
    (.cons "U" (.hexString keys.U)
    (.cons "OE" (.hexString keys.OE)
    (.cons "UE" (.hexString keys.UE)
    (.cons "Perms" (.hexString keys.Perms)
    (.cons "EncryptMetadata" (.boolean encryptMetadata)
    (.cons "CF"
      (.dict (.cons "StdCF"
        (.dict (.cons "Type" (.name "CryptFilter")
               (.cons "CFM" (.name "AESV3")
               (.cons "Length" (.number 32) .nil)))) .nil))
    (.cons "StmF" (.name "StdCF")
    (.cons "StrF" (.name "StdCF") .nil))))))))))))))

/-- The Encrypt dictionary built by encrypt.ts encryptPDF (Rev 5, AESV3). -/
def buildEncryptDict (keys : Rev5Keys) (permissions : Int)
    (encryptMetadata : Bool) : PDFObject :=
  .dict (buildEncryptEntries keys permissions encryptMetadata)

/-- encrypt.ts encryptPDF: assign a fresh file ID when absent, compute the
Rev 5 key material (owner password defaulting to the user password, permissions
defaulting to -4, metadata encryption on unless explicitly disabled), encrypt
every indirect object, then register the Encrypt dictionary and point the
trailer at it.  (`PDFDocument.load`/`save` belong to the external document
model; the document is modelled directly as its object graph.) -/
def encryptPDF (A : Cipher) (H : List Nat → List Nat) (doc : Doc)
    (userPassword : List Nat) (ownerPassword : Option (List Nat))
    (options : EncryptOptions) (e0 : Ent) : Except PDFError (Doc × Ent) :=
  let permissions := options.permissions.getD (-4)
  let encryptMetadata := options.encryptMetadata.getD true
  let newTrailerID :=
    match doc.trailerID with
    | some fid => some fid
    | none => some (getRandomBytes 16 e0).1
  let e1 :=
    match doc.trailerID with
    | some _ => e0
    | none => (getRandomBytes 16 e0).2
  match computeRev5Keys A H
      { userPassword := userPassword,
        ownerPassword := ownerPassword.getD userPassword,
        permissions := permissions,
        encryptMetadata := encryptMetadata } e1 with
  | .error err => .error err
  | .ok (keys, e2) =>
    match encryptAllObjects A keys.fileEncryptionKey doc.objects e2 with
    | .error err => .error err
    | .ok (objs, e3) =>
      .ok ({ objects := objs ++ [buildEncryptDict keys permissions encryptMetadata],
             trailerEncrypt := some objs.length,
             trailerID := newTrailerID }, e3)

/-- decrypt.ts getEncryptBytes: the byte content of a hex-string or string
entry, `none` otherwise. -/
def getEncryptBytes (entries : PDFEntries) (key : String) : Option (List Nat) :=
  match entries.lookupKey key with
  | some (.hexString b) => some b
  | some (.string b) => some b
  | _ => none

/-- decrypt.ts: `R && 'asNumber' in R ? R.asNumber() : 0` — the numeric value
of an entry, 0 when absent or not a number. -/
def dictNumberOrZero (entries : PDFEntries) (key : String) : Int :=
  match entries.lookupKey key with
  | some (.number n) => n
  | _ => 0

/-- decrypt.ts decryptPDF: resolve the trailer's Encrypt dictionary, check
R = 5 and V = 5, extract and length-check O/U/OE/UE, recover the file key from
the password, decrypt every indirect object, and detach the Encrypt reference
from the trailer. -/
def decryptPDF (A : Cipher) (H : List Nat → List Nat) (doc : Doc)
    (password : List Nat) : Except PDFError Doc :=
  match doc.trailerEncrypt with
  | none => .error .notEncrypted
  | some encryptRef =>
    match doc.objects[encryptRef]? with
    | some (.dict entries) =>
      let r := dictNumberOrZero entries "R"
      let v := dictNumberOrZero entries "V"
      if r ≠ 5 ∨ v ≠ 5 then .error (.unsupportedEncryption r v)
      else
        match getEncryptBytes entries "O", getEncryptBytes entries "U",
              getEncryptBytes entries "OE", getEncryptBytes entries "UE" with
        | some O, some U, some OE, some UE =>
          if O.length ≠ 48 ∨ U.length ≠ 48 ∨ OE.length ≠ 32 ∨ UE.length ≠ 32 then
            .error .invalidEncryptLengths
          else
            match deriveFileKeyFromPassword A H password U O OE UE with
            | none => .error .wrongPassword
            | some fileKey =>
              match decryptAllObjects A fileKey doc.objects with
              | .error err => .error err
              | .ok objs =>
                .ok { objects := objs, trailerEncrypt := none,
                      trailerID := doc.trailerID }
        | _, _, _, _ => .error .invalidEncryptLengths
    | _ => .error .invalidEncryptDict

mutual

/-- Payload-content normal form: erase the `string` / `hexString` distinction
(both carry the same byte content through a hex round-trip) so that two objects
are payload-equal iff their normal forms are equal.  Specification-side
definition for the round-trip claims ("byte-for-byte equality of payload
contents, not of serialization"). -/
def stripTag : PDFObject → PDFObject
  | .stream d c => .stream (stripTagEntries d) c
  | .dict es => .dict (stripTagEntries es)
  | .array els => .array (stripTagList els)
  | .string b => .hexString b
  | o => o

def stripTagEntries : PDFEntries → PDFEntries
  | .nil => .nil
  | .cons k v rest => .cons k (stripTag v) (stripTagEntries rest)

def stripTagList : PDFObjList → PDFObjList
  | .nil => .nil
  | .cons o rest => .cons (stripTag o) (stripTagList rest)

end

/-!
## Concrete instances for witnesses

A toy block cipher (XOR with a key-derived stream, an involution on 16-byte
blocks) and a toy digest standing in for the platform AES/SHA-256 when
evaluating theorems on concrete inputs.
-/

/-- 16 key-dependent bytes used by the toy cipher. -/
def toyKeyStream (key : List Nat) : List Nat :=
  (List.range 16).map (fun i => (key.foldl (fun a b => a + b) 0 + 31 * i) % 256)

/-- Toy block cipher: XOR with `toyKeyStream`, its own inverse. -/
def toyCipher : Cipher :=
  { enc := fun key block => List.zipWith (fun x y => x ^^^ y) block (toyKeyStream key),
    dec := fun key block => List.zipWith (fun x y => x ^^^ y) block (toyKeyStream key) }

/-- Toy digest: 32 bytes derived from a fold of the input. -/
def toyHash (data : List Nat) : List Nat :=
  (List.range 32).map (fun i => (data.foldl (fun a b => a * 3 + b + 1) 0 + i) % 997)

/-- The Rev5EncryptParams encrypt.ts passes to computeRev5Keys: the owner
password defaults to the user password, permissions default to -4, and
metadata encryption is on unless explicitly disabled. -/
def encParams (userPassword : List Nat) (ownerPassword : Option (List Nat))
    (options : EncryptOptions) : Rev5EncryptParams :=
  { userPassword := userPassword,
    ownerPassword := ownerPassword.getD userPassword,
    permissions := options.permissions.getD (-4),
    encryptMetadata := options.encryptMetadata.getD true }

/-- The entropy state after encryptPDF's file-ID step (a 16-byte ID is drawn
only when the trailer has none). -/
def encEntropy (doc : Doc) (e0 : Ent) : Ent :=
  match doc.trailerID with
  | some _ => e0
  | none => (getRandomBytes 16 e0).2

/-- The trailer ID encryptPDF leaves in the output document. -/
def encTrailerID (doc : Doc) (e0 : Ent) : Option (List Nat) :=
  match doc.trailerID with
  | some fid => some fid
  | none => some (getRandomBytes 16 e0).1

/-!
## Named projections of computeRev5Keys internals

Statement-side names for the values computeRev5Keys draws and derives from the
entropy state, used to state its input/output relation explicitly.
-/

/-- Prepared user password (kdf.ts `preparePassword(params.userPassword)`). -/
def kdfUserPwd (params : Rev5EncryptParams) : List Nat :=
  preparePassword params.userPassword

/-- Prepared effective owner password (kdf.ts
`preparePassword(params.ownerPassword || params.userPassword)` — an empty owner
password falls back to the user password). -/
def kdfOwnerPwd (params : Rev5EncryptParams) : List Nat :=
  preparePassword
    (if params.ownerPassword = [] then params.userPassword else params.ownerPassword)

/-- The 32-byte file encryption key drawn first. -/
def kdfFileKey (e0 : Ent) : List Nat := (getRandomBytes 32 e0).1

def kdfEntA (e0 : Ent) : Ent := (getRandomBytes 32 e0).2

def kdfEntB (e0 : Ent) : Ent := (getRandomBytes 8 (kdfEntA e0)).2

def kdfEntC (e0 : Ent) : Ent := (getRandomBytes 8 (kdfEntB e0)).2

def kdfEntD (e0 : Ent) : Ent := (getRandomBytes 8 (kdfEntC e0)).2

def kdfEntE (e0 : Ent) : Ent := (getRandomBytes 8 (kdfEntD e0)).2

def kdfEntF (e0 : Ent) : Ent := (getRandomBytes 4 (kdfEntE e0)).2

/-- User validation salt (8 bytes). -/
def kdfUVS (e0 : Ent) : List Nat := (getRandomBytes 8 (kdfEntA e0)).1

/-- User key salt (8 bytes). -/
def kdfUKS (e0 : Ent) : List Nat := (getRandomBytes 8 (kdfEntB e0)).1

/-- Owner validation salt (8 bytes). -/
def kdfOVS (e0 : Ent) : List Nat := (getRandomBytes 8 (kdfEntC e0)).1

/-- Owner key salt (8 bytes). -/
def kdfOKS (e0 : Ent) : List Nat := (getRandomBytes 8 (kdfEntD e0)).1

/-- The 4 random trailing bytes of the permissions block. -/
def kdfRnd4 (e0 : Ent) : List Nat := (getRandomBytes 4 (kdfEntE e0)).1

/-- The user password material `U = hash ∥ validationSalt ∥ keySalt`. -/
def kdfU (H : List Nat → List Nat) (params : Rev5EncryptParams) (e0 : Ent) : List Nat :=
  H (kdfUserPwd params ++ kdfUVS e0) ++ kdfUVS e0 ++ kdfUKS e0

/-- The wrapped user key `UE`. -/
def kdfUE (A : Cipher) (H : List Nat → List Nat) (params : Rev5EncryptParams)
    (e0 : Ent) : List Nat :=
  cbcEncRawN A (H (kdfUserPwd params ++ kdfUKS e0)) 2 zero16 (kdfFileKey e0)

/-- The owner password material `O`; its hash binds the full user material. -/
def kdfO (H : List Nat → List Nat) (params : Rev5EncryptParams) (e0 : Ent) : List Nat :=
  H (kdfOwnerPwd params ++ kdfOVS e0 ++ kdfU H params e0) ++ kdfOVS e0 ++ kdfOKS e0

/-- The wrapped owner key `OE`; its wrapping key binds the full user material. -/
def kdfOE (A : Cipher) (H : List Nat → List Nat) (params : Rev5EncryptParams)
    (e0 : Ent) : List Nat :=
  cbcEncRawN A (H (kdfOwnerPwd params ++ kdfOKS e0 ++ kdfU H params e0)) 2 zero16
    (kdfFileKey e0)

/-- The permissions seal: the 16-byte block encrypted as a single unpadded
block directly under the file encryption key. -/
def kdfPerms (A : Cipher) (params : Rev5EncryptParams) (e0 : Ent) : List Nat :=
  A.enc (kdfFileKey e0)
    (permsBlockSrc params.permissions params.encryptMetadata (kdfRnd4 e0))

/-- The full Rev5Keys record produced by computeRev5Keys on entropy `e0`. -/
def kdfKeys (A : Cipher) (H : List Nat → List Nat) (params : Rev5EncryptParams)
    (e0 : Ent) : Rev5Keys :=
  { fileEncryptionKey := kdfFileKey e0, O := kdfO H params e0, U := kdfU H params e0,
    OE := kdfOE A H params e0, UE := kdfUE A H params e0, Perms := kdfPerms A params e0 }

/-- Specification-side little-endian layout of the permission bitmask: the
four bytes of `permissions` interpreted as an unsigned 32-bit value
(two's complement for negative values), least significant byte first. -/
def permsLELayout (permissions : Int) : List Nat :=
  [(permissions.emod 4294967296).toNat % 256,
   (permissions.emod 4294967296).toNat / 256 % 256,
   (permissions.emod 4294967296).toNat / 65536 % 256,
   (permissions.emod 4294967296).toNat / 16777216 % 256]

/-!
## Concrete inputs for evaluating the theorems
-/

/-- A 32-byte key for concrete payload checks. -/
def c3Key : List Nat := List.replicate 32 5

/-- A payload leaf of exactly 16 plaintext bytes. -/
def c3Data : List Nat := List.replicate 16 9

/-- Entropy for the concrete payload check. -/
def c3Ent : Ent := { pool := [1, 2, 3, 4, 5, 6, 7, 8], off := 0 }

/-- A one-stream, one-dictionary document for concrete pipeline checks. -/
def cDoc : Doc :=
  { objects := [.stream (.cons "Length" (.number 3) .nil) [10, 20, 30],
                .dict (.cons "K" (.string [7, 7]) .nil)],
    trailerEncrypt := none,
    trailerID := none }

/-- Entropy pool for concrete pipeline checks. -/
def cEnt : Ent := { pool := [3, 1, 4, 1, 5, 9, 2, 6, 5, 3, 5, 8, 9, 7, 9, 3], off := 0 }

/-- Options for concrete pipeline checks. -/
def cOpts : EncryptOptions := { permissions := some (-4), encryptMetadata := none }

/-- The document produced by encrypting `cDoc` with user password [1] and
owner password [2] under the toy primitives. -/
def c2EncDoc : Doc :=
  match encryptPDF toyCipher toyHash cDoc [1] (some [2]) cOpts cEnt with
  | .ok (d, _) => d
  | .error _ => { objects := [], trailerEncrypt := none, trailerID := none }

/-- The entropy state after encrypting `cDoc` as in `c2EncDoc`. -/
def c2EncEnt : Ent :=
  match encryptPDF toyCipher toyHash cDoc [1] (some [2]) cOpts cEnt with
  | .ok (_, e) => e
  | .error _ => { pool := [], off := 0 }

/-- The document produced by encrypting `cDoc` with user password [1] and an
EMPTY owner password under the toy primitives (the empty owner password falls
back to the user password at encryption time). -/
def c1CexEncDoc : Doc :=
  match encryptPDF toyCipher toyHash cDoc [1] (some []) cOpts cEnt with
  | .ok (d, _) => d
  | .error _ => { objects := [], trailerEncrypt := none, trailerID := none }

/-- A document with a structurally valid Rev 5 descriptor whose O field has
the wrong length (47 bytes instead of 48). -/
def c4BadLenDoc : Doc :=
  { objects := [.dict
      (.cons "Filter" (.name "Standard")
      (.cons "V" (.number 5)
      (.cons "R" (.number 5)
      (.cons "O" (.hexString (List.replicate 47 1))
      (.cons "U" (.hexString (List.replicate 48 2))
      (.cons "OE" (.hexString (List.replicate 32 3))
      (.cons "UE" (.hexString (List.replicate 32 4)) .nil)))))))],
    trailerEncrypt := some 0,
    trailerID := none }

/-- Key material computed from entropy `cEnt` for user password [1] and owner
password [2] under the toy primitives. -/
def c4Keys : Rev5Keys :=
  match computeRev5Keys toyCipher toyHash
      { userPassword := [1], ownerPassword := [2], permissions := -4,
        encryptMetadata := true } cEnt with
  | .ok (k, _) => k
  | .error _ =>
    { fileEncryptionKey := [], O := [], U := [], OE := [], UE := [], Perms := [] }

/-- A document whose descriptor carries the valid `c4Keys` material but whose
single stream payload is corrupt (3 bytes, shorter than IV plus one block). -/
def c4CorruptDoc : Doc :=
  { objects := [.stream .nil [1, 2, 3],
                .dict (buildEncryptEntries c4Keys (-4) true)],
    trailerEncrypt := some 1,
    trailerID := none }

/-- A document whose descriptor names an unsupported scheme (R = 4, V = 4). -/
def c7Doc : Doc :=
  { objects := [.dict
      (.cons "Filter" (.name "Standard")
      (.cons "V" (.number 4)
      (.cons "R" (.number 4) .nil)))],
    trailerEncrypt := some 0,
    trailerID := none }

theorem toyKeyStream_length (key : List Nat) : (toyKeyStream key).length = 16 := by
  simp [toyKeyStream]

theorem zipWith_xor_self_cancel :
    ∀ (b s : List Nat), b.length ≤ s.length →
      List.zipWith (fun x y => x ^^^ y) (List.zipWith (fun x y => x ^^^ y) b s) s = b := by
  intro b
  induction b with
  | nil => intro s _; simp
  | cons x xs ih =>
    intro s hs
    cases s with
    | nil => simp at hs
    | cons y ys =>
      simp only [List.zipWith_cons_cons]
      rw [Nat.xor_assoc, Nat.xor_self, Nat.xor_zero]
      exact congrArg (x :: ·) (ih ys (by simpa using hs))

theorem toyCipher_enc_length (key b : List Nat) (hb : b.length = 16) :
    (toyCipher.enc key b).length = 16 := by
  simp [toyCipher, hb, toyKeyStream_length]

theorem toyCipher_dec_length (key b : List Nat) (hb : b.length = 16) :
    (toyCipher.dec key b).length = 16 := by
  simp [toyCipher, hb, toyKeyStream_length]

theorem toyCipher_dec_enc (key b : List Nat) (hb : b.length = 16) :
    toyCipher.dec key (toyCipher.enc key b) = b := by
  simp only [toyCipher]
  exact zipWith_xor_self_cancel b (toyKeyStream key) (by simp [hb, toyKeyStream_length])

theorem toyHash_length (data : List Nat) : (toyHash data).length = 32 := by
  simp [toyHash]

/-!
## Byte-level lemmas
-/

theorem getRandomBytes_length (n : Nat) (e : Ent) :
    (getRandomBytes n e).1.length = n := by
  simp [getRandomBytes]

theorem zero16_length : zero16.length = 16 := by simp [zero16]

theorem fullPad16_length : fullPad16.length = 16 := by simp [fullPad16]

theorem xor16_length (a b : List Nat) :
    (xor16 a b).length = min a.length b.length := by
  simp [xor16]

theorem xor16_zero16 (a : List Nat) (ha : a.length = 16) : xor16 zero16 a = a := by
  have : ∀ (n : Nat) (l : List Nat), l.length = n →
      List.zipWith (fun x y => x ^^^ y) (List.replicate n 0) l = l := by
    intro n
    induction n with
    | zero => intro l hl; simp [List.length_eq_zero.mp hl]
    | succ m ih =>
      intro l hl
      cases l with
      | nil => simp at hl
      | cons x xs =>
        simp only [List.replicate_succ, List.zipWith_cons_cons, Nat.zero_xor]
        exact congrArg (x :: ·) (ih xs (by simpa using hl))
  exact this 16 a ha

theorem xor16_cancel_left (a b : List Nat) (h : a.length = b.length) :
    xor16 a (xor16 a b) = b := by
  unfold xor16
  induction a generalizing b with
  | nil => cases b with
    | nil => simp
    | cons y ys => simp at h
  | cons x xs ih =>
    cases b with
    | nil => simp at h
    | cons y ys =>
      simp only [List.zipWith_cons_cons]
      rw [← Nat.xor_assoc, Nat.xor_self, Nat.zero_xor]
      exact congrArg (y :: ·) (ih ys (by simpa using h))

theorem xor16_swap_cancel (a b : List Nat) (h : a.length = b.length) :
    xor16 a (xor16 b a) = b := by
  unfold xor16
  induction a generalizing b with
  | nil => cases b with
    | nil => simp
    | cons y ys => simp at h
  | cons x xs ih =>
    cases b with
    | nil => simp at h
    | cons y ys =>
      simp only [List.zipWith_cons_cons]
      rw [Nat.xor_comm y x, ← Nat.xor_assoc, Nat.xor_self, Nat.zero_xor]
      exact congrArg (y :: ·) (ih ys (by simpa using h))

theorem pad16_length (m : List Nat) :
    (pad16 m).length = m.length + (16 - m.length % 16) := by
  simp [pad16]

theorem padAmount_bounds (m : List Nat) :
    1 ≤ 16 - m.length % 16 ∧ 16 - m.length % 16 ≤ 16 := by
  have h := Nat.mod_lt m.length (show 0 < 16 by norm_num)
  omega

theorem pad16_length_mod (m : List Nat) : (pad16 m).length % 16 = 0 := by
  rw [pad16_length]
  have h := Nat.mod_lt m.length (show 0 < 16 by norm_num)
  omega

theorem pad16_length_pos (m : List Nat) : 16 ≤ (pad16 m).length := by
  rw [pad16_length]
  have h := Nat.mod_lt m.length (show 0 < 16 by norm_num)
  omega

theorem unpad16_append_replicate (m : List Nat) (j : Nat) (h1 : 1 ≤ j)
    (h16 : j ≤ 16) : unpad16 (m ++ List.replicate j j) = some m := by
  have hne : List.replicate j j ≠ [] := by
    intro h
    have := congrArg List.length h
    simp at this
    omega
  have hlast : (m ++ List.replicate j j).getLast? = some j := by
    rw [List.getLast?_append_of_ne_nil _ hne]
    cases j with
    | zero => omega
    | succ n => rw [List.getLast?_eq_getLast _ hne, List.getLast_replicate]
  have hlen : (m ++ List.replicate j j).length = m.length + j := by simp
  unfold unpad16
  rw [hlast]
  have hsub : m.length + j - j = m.length := by omega
  have hdrop : (m ++ List.replicate j j).drop ((m ++ List.replicate j j).length - j)
      = List.replicate j j := by
    rw [hlen, hsub]; exact List.drop_left m _
  have hle : j ≤ (m ++ List.replicate j j).length := by rw [hlen]; omega
  dsimp only
  rw [if_pos ⟨h1, h16, hle, hdrop⟩, hlen, hsub, List.take_left]

theorem unpad16_pad16 (m : List Nat) : unpad16 (pad16 m) = some m := by
  have h := padAmount_bounds m
  exact unpad16_append_replicate m _ h.1 h.2

/-!
## Cipher-mode lemmas

All assume the block-cipher contract: `A.dec k` undoes `A.enc k` on 16-byte
blocks and both preserve block length.
-/

theorem cbcEncRawN_length (A : Cipher) (key : List Nat)
    (hEncLen : ∀ k b, b.length = 16 → (A.enc k b).length = 16) :
    ∀ (n : Nat) (prev m : List Nat), prev.length = 16 → m.length = 16 * n →
      (cbcEncRawN A key n prev m).length = 16 * n := by
  intro n
  induction n with
  | zero => intro prev m _ _; simp [cbcEncRawN]
  | succ j ih =>
    intro prev m hprev hm
    have htake : (m.take 16).length = 16 := by simp; omega
    have hxor : (xor16 prev (m.take 16)).length = 16 := by
      rw [xor16_length, hprev, htake]; simp
    have hc : (A.enc key (xor16 prev (m.take 16))).length = 16 := hEncLen _ _ hxor
    have hdrop : (m.drop 16).length = 16 * j := by simp; omega
    simp only [cbcEncRawN, List.length_append, hc, ih _ _ hc hdrop]
    ring

theorem cbcDecRawN_cbcEncRawN (A : Cipher) (key : List Nat)
    (hEncLen : ∀ k b, b.length = 16 → (A.enc k b).length = 16)
    (hDecEnc : ∀ k b, b.length = 16 → A.dec k (A.enc k b) = b) :
    ∀ (n : Nat) (prev m : List Nat), prev.length = 16 → m.length = 16 * n →
      cbcDecRawN A key n prev (cbcEncRawN A key n prev m) = m := by
  intro n
  induction n with
  | zero =>
    intro prev m _ hm
    simp only [cbcEncRawN, cbcDecRawN]
    exact (List.length_eq_zero.mp (by omega)).symm
  | succ j ih =>
    intro prev m hprev hm
    have htake : (m.take 16).length = 16 := by simp; omega
    have hxor : (xor16 prev (m.take 16)).length = 16 := by
      rw [xor16_length, hprev, htake]; simp
    have hc : (A.enc key (xor16 prev (m.take 16))).length = 16 := hEncLen _ _ hxor
    have hdrop : (m.drop 16).length = 16 * j := by simp; omega
    simp only [cbcEncRawN, cbcDecRawN]
    rw [List.take_left' hc, List.drop_left' hc, hDecEnc _ _ hxor,
      xor16_cancel_left prev (m.take 16) (by rw [hprev, htake]),
      ih _ _ hc hdrop, List.take_append_drop]

theorem pad16_blocks (m : List Nat) :
    (pad16 m).length = 16 * ((pad16 m).length / 16) :=
  (Nat.mul_div_cancel' (Nat.dvd_of_mod_eq_zero (pad16_length_mod m))).symm

theorem subtleCbcEncrypt_length (A : Cipher) (key iv m : List Nat)
    (hEncLen : ∀ k b, b.length = 16 → (A.enc k b).length = 16)
    (hiv : iv.length = 16) :
    (subtleCbcEncrypt A key iv m).length = (pad16 m).length := by
  unfold subtleCbcEncrypt
  rw [cbcEncRawN_length A key hEncLen _ _ _ hiv (pad16_blocks m)]
  exact (pad16_blocks m).symm

theorem subtleCbcDecrypt_subtleCbcEncrypt (A : Cipher) (key iv m : List Nat)
    (hEncLen : ∀ k b, b.length = 16 → (A.enc k b).length = 16)
    (hDecEnc : ∀ k b, b.length = 16 → A.dec k (A.enc k b) = b)
    (hiv : iv.length = 16) :
    subtleCbcDecrypt A key iv (subtleCbcEncrypt A key iv m) = some m := by
  have hlen := subtleCbcEncrypt_length A key iv m hEncLen hiv
  have hpos := pad16_length_pos m
  have hmod := pad16_length_mod m
  unfold subtleCbcDecrypt
  rw [if_neg (by omega)]
  have hdiv : (subtleCbcEncrypt A key iv m).length / 16 = (pad16 m).length / 16 := by
    rw [hlen]
  rw [hdiv]
  unfold subtleCbcEncrypt
  rw [cbcDecRawN_cbcEncRawN A key hEncLen hDecEnc _ _ _ hiv (pad16_blocks m)]
  exact unpad16_pad16 m

theorem aes256CbcEncrypt_eval (A : Cipher) (key iv m : List Nat)
    (hk : key.length = 32) (hiv : iv.length = 16) :
    aes256CbcEncrypt A key iv m = .ok (subtleCbcEncrypt A key iv m) := by
  unfold aes256CbcEncrypt
  rw [if_neg (by simp [hk, hiv])]

theorem aes256CbcDecrypt_roundtrip (A : Cipher) (key iv m : List Nat)
    (hEncLen : ∀ k b, b.length = 16 → (A.enc k b).length = 16)
    (hDecEnc : ∀ k b, b.length = 16 → A.dec k (A.enc k b) = b)
    (hk : key.length = 32) (hiv : iv.length = 16) :
    aes256CbcDecrypt A key iv (subtleCbcEncrypt A key iv m) = .ok m := by
  have hlen := subtleCbcEncrypt_length A key iv m hEncLen hiv
  have hmod := pad16_length_mod m
  unfold aes256CbcDecrypt
  rw [if_neg (by simp [hk, hiv]), if_neg (by omega),
    subtleCbcDecrypt_subtleCbcEncrypt A key iv m hEncLen hDecEnc hiv]

theorem aes256EcbEncrypt_eval (A : Cipher) (key b : List Nat)
    (hEncLen : ∀ k x, x.length = 16 → (A.enc k x).length = 16)
    (hk : key.length = 32) (hb : b.length = 16) :
    aes256EcbEncrypt A key b = .ok (A.enc key b) := by
  have hpad : pad16 b = b ++ List.replicate 16 16 := by
    simp [pad16, hb]
  have hplen : (pad16 b).length = 32 := by rw [hpad]; simp [hb]
  unfold aes256EcbEncrypt
  rw [if_neg (by simp [hb, hk])]
  unfold subtleCbcEncrypt
  rw [hplen]
  norm_num
  simp only [cbcEncRawN]
  rw [hpad, List.take_left' hb, xor16_zero16 b hb,
    List.take_left' (hEncLen key b hb)]

theorem aes256EcbDecrypt_eval (A : Cipher) (key c : List Nat)
    (hEncLen : ∀ k x, x.length = 16 → (A.enc k x).length = 16)
    (hDecLen : ∀ k x, x.length = 16 → (A.dec k x).length = 16)
    (hDecEnc : ∀ k x, x.length = 16 → A.dec k (A.enc k x) = x)
    (hk : key.length = 32) (hc : c.length = 16) :
    aes256EcbDecrypt A key c = .ok (A.dec key c) := by
  have hx : (xor16 fullPad16 c).length = 16 := by
    rw [xor16_length, fullPad16_length, hc]; simp
  have hc2 := aes256EcbEncrypt_eval A key _ hEncLen hk hx
  have hlen2 : (A.enc key (xor16 fullPad16 c)).length = 16 := hEncLen _ _ hx
  unfold aes256EcbDecrypt
  rw [if_neg (by simp [hc, hk]), hc2]
  have htwo : (c ++ A.enc key (xor16 fullPad16 c)).length = 32 := by
    simp [hc, hlen2]
  unfold subtleCbcDecrypt
  dsimp only
  rw [if_neg (by rw [htwo]; norm_num), htwo]
  norm_num
  simp only [cbcDecRawN]
  rw [List.take_left' hc, List.drop_left' hc,
    List.take_of_length_le (le_of_eq hlen2), hDecEnc _ _ hx,
    xor16_swap_cancel c fullPad16 (by rw [hc, fullPad16_length]),
    xor16_zero16 _ (hDecLen key c hc), List.append_nil]
  have hres := unpad16_append_replicate (A.dec key c) 16 (by norm_num) (by norm_num)
  rw [show List.replicate 16 16 = fullPad16 from rfl] at hres
  rw [hres]

theorem cbcEncNoPadLoop_eval (A : Cipher) (key : List Nat)
    (hEncLen : ∀ k x, x.length = 16 → (A.enc k x).length = 16)
    (hk : key.length = 32) :
    ∀ (n : Nat) (prev m : List Nat), prev.length = 16 → m.length = 16 * n →
      cbcEncNoPadLoop A key n prev m = .ok (cbcEncRawN A key n prev m) := by
  intro n
  induction n with
  | zero => intro prev m _ _; simp [cbcEncNoPadLoop, cbcEncRawN]
  | succ j ih =>
    intro prev m hprev hm
    have htake : (m.take 16).length = 16 := by simp; omega
    have hxor : (xor16 prev (m.take 16)).length = 16 := by
      rw [xor16_length, hprev, htake]; simp
    have hc : (A.enc key (xor16 prev (m.take 16))).length = 16 := hEncLen _ _ hxor
    have hdrop : (m.drop 16).length = 16 * j := by simp; omega
    simp only [cbcEncNoPadLoop, cbcEncRawN,
      aes256EcbEncrypt_eval A key _ hEncLen hk hxor, ih _ _ hc hdrop]

theorem cbcDecNoPadLoop_eval (A : Cipher) (key : List Nat)
    (hEncLen : ∀ k x, x.length = 16 → (A.enc k x).length = 16)
    (hDecLen : ∀ k x, x.length = 16 → (A.dec k x).length = 16)
    (hDecEnc : ∀ k x, x.length = 16 → A.dec k (A.enc k x) = x)
    (hk : key.length = 32) :
    ∀ (n : Nat) (prev ct : List Nat), ct.length = 16 * n →
      cbcDecNoPadLoop A key n prev ct = .ok (cbcDecRawN A key n prev ct) := by
  intro n
  induction n with
  | zero => intro prev ct _; simp [cbcDecNoPadLoop, cbcDecRawN]
  | succ j ih =>
    intro prev ct hct
    have htake : (ct.take 16).length = 16 := by simp; omega
    have hdrop : (ct.drop 16).length = 16 * j := by simp; omega
    simp only [cbcDecNoPadLoop, cbcDecRawN,
      aes256EcbDecrypt_eval A key _ hEncLen hDecLen hDecEnc hk htake,
      ih _ _ hdrop]

theorem aes256CbcEncryptNoPadding_eval (A : Cipher) (key iv m : List Nat)
    (hEncLen : ∀ k x, x.length = 16 → (A.enc k x).length = 16)
    (hk : key.length = 32) (hiv : iv.length = 16) (n : Nat)
    (hm : m.length = 16 * n) :
    aes256CbcEncryptNoPadding A key iv m = .ok (cbcEncRawN A key n iv m) := by
  unfold aes256CbcEncryptNoPadding
  rw [if_neg (by omega)]
  have hdiv : m.length / 16 = n := by omega
  rw [hdiv]
  exact cbcEncNoPadLoop_eval A key hEncLen hk n iv m hiv hm

theorem aes256CbcNoPad_roundtrip (A : Cipher) (key iv m : List Nat)
    (hEncLen : ∀ k x, x.length = 16 → (A.enc k x).length = 16)
    (hDecLen : ∀ k x, x.length = 16 → (A.dec k x).length = 16)
    (hDecEnc : ∀ k x, x.length = 16 → A.dec k (A.enc k x) = x)
    (hk : key.length = 32) (hiv : iv.length = 16) (n : Nat)
    (hm : m.length = 16 * n) :
    aes256CbcDecryptNoPadding A key iv (cbcEncRawN A key n iv m) = .ok m := by
  have hclen := cbcEncRawN_length A key hEncLen n iv m hiv hm
  unfold aes256CbcDecryptNoPadding
  rw [if_neg (by omega)]
  have hdiv : (cbcEncRawN A key n iv m).length / 16 = n := by omega
  rw [hdiv, cbcDecNoPadLoop_eval A key hEncLen hDecLen hDecEnc hk n iv _ hclen,
    cbcDecRawN_cbcEncRawN A key hEncLen hDecEnc n iv m hiv hm]

/-!
## KDF lemmas
-/

theorem computeRev5Keys_eval (A : Cipher) (H : List Nat → List Nat)
    (params : Rev5EncryptParams) (e0 : Ent)
    (hH32 : ∀ x, (H x).length = 32)
    (hEncLen : ∀ k x, x.length = 16 → (A.enc k x).length = 16) :
    computeRev5Keys A H params e0 = .ok (kdfKeys A H params e0, kdfEntF e0) := by
  have hfk : (kdfFileKey e0).length = 32 := getRandomBytes_length 32 _
  have h1 := aes256CbcEncryptNoPadding_eval A (H (kdfUserPwd params ++ kdfUKS e0))
    zero16 (kdfFileKey e0) hEncLen (hH32 _) zero16_length 2 (by rw [hfk])
  have h2 := aes256CbcEncryptNoPadding_eval A
    (H (kdfOwnerPwd params ++ kdfOKS e0 ++ kdfU H params e0))
    zero16 (kdfFileKey e0) hEncLen (hH32 _) zero16_length 2 (by rw [hfk])
  have hpb : (permsBlockSrc params.permissions params.encryptMetadata (kdfRnd4 e0)).length = 16 := by
    simp [permsBlockSrc, kdfRnd4, getRandomBytes_length]
  have h3 := aes256EcbEncrypt_eval A (kdfFileKey e0)
    (permsBlockSrc params.permissions params.encryptMetadata (kdfRnd4 e0)) hEncLen hfk hpb
  simp only [kdfKeys, kdfUserPwd, kdfOwnerPwd, kdfFileKey, kdfUVS, kdfUKS, kdfOVS,
    kdfOKS, kdfRnd4, kdfU, kdfUE, kdfO, kdfOE, kdfPerms, kdfEntA, kdfEntB, kdfEntC,
    kdfEntD, kdfEntE, kdfEntF] at h1 h2 h3 ⊢
  simp only [computeRev5Keys, h1, h2, h3]

theorem kdfFileKey_length (e0 : Ent) : (kdfFileKey e0).length = 32 :=
  getRandomBytes_length 32 _

theorem kdfU_length (H : List Nat → List Nat) (params : Rev5EncryptParams)
    (e0 : Ent) (hH32 : ∀ x, (H x).length = 32) : (kdfU H params e0).length = 48 := by
  simp [kdfU, hH32, kdfUVS, kdfUKS, getRandomBytes_length]

theorem kdfO_length (H : List Nat → List Nat) (params : Rev5EncryptParams)
    (e0 : Ent) (hH32 : ∀ x, (H x).length = 32) : (kdfO H params e0).length = 48 := by
  simp [kdfO, hH32, kdfOVS, kdfOKS, getRandomBytes_length]

theorem kdfUE_length (A : Cipher) (H : List Nat → List Nat)
    (params : Rev5EncryptParams) (e0 : Ent)
    (hEncLen : ∀ k x, x.length = 16 → (A.enc k x).length = 16) :
    (kdfUE A H params e0).length = 32 := by
  unfold kdfUE
  rw [cbcEncRawN_length A _ hEncLen 2 _ _ zero16_length (by rw [kdfFileKey_length])]

theorem kdfOE_length (A : Cipher) (H : List Nat → List Nat)
    (params : Rev5EncryptParams) (e0 : Ent)
    (hEncLen : ∀ k x, x.length = 16 → (A.enc k x).length = 16) :
    (kdfOE A H params e0).length = 32 := by
  unfold kdfOE
  rw [cbcEncRawN_length A _ hEncLen 2 _ _ zero16_length (by rw [kdfFileKey_length])]

theorem permsBlockSrc_length (permissions : Int) (encryptMetadata : Bool)
    (rnd : List Nat) (hr : rnd.length = 4) :
    (permsBlockSrc permissions encryptMetadata rnd).length = 16 := by
  simp [permsBlockSrc, hr]

theorem kdfPerms_length (A : Cipher) (params : Rev5EncryptParams) (e0 : Ent)
    (hEncLen : ∀ k x, x.length = 16 → (A.enc k x).length = 16) :
    (kdfPerms A params e0).length = 16 := by
  unfold kdfPerms
  exact hEncLen _ _ (permsBlockSrc_length _ _ _ (getRandomBytes_length 4 _))

theorem kdfUVS_length (e0 : Ent) : (kdfUVS e0).length = 8 := getRandomBytes_length 8 _

theorem kdfUKS_length (e0 : Ent) : (kdfUKS e0).length = 8 := getRandomBytes_length 8 _

theorem kdfOVS_length (e0 : Ent) : (kdfOVS e0).length = 8 := getRandomBytes_length 8 _

theorem kdfOKS_length (e0 : Ent) : (kdfOKS e0).length = 8 := getRandomBytes_length 8 _

theorem kdfRnd4_length (e0 : Ent) : (kdfRnd4 e0).length = 4 := getRandomBytes_length 4 _

theorem kdfU_take32 (H : List Nat → List Nat) (params : Rev5EncryptParams)
    (e0 : Ent) (hH32 : ∀ x, (H x).length = 32) :
    (kdfU H params e0).take 32 = H (kdfUserPwd params ++ kdfUVS e0) := by
  unfold kdfU
  rw [List.append_assoc, List.take_left' (hH32 _)]

theorem kdfU_valSalt (H : List Nat → List Nat) (params : Rev5EncryptParams)
    (e0 : Ent) (hH32 : ∀ x, (H x).length = 32) :
    ((kdfU H params e0).drop 32).take 8 = kdfUVS e0 := by
  unfold kdfU
  rw [List.append_assoc, List.drop_left' (hH32 _), List.take_left' (kdfUVS_length e0)]

theorem kdfU_keySalt (H : List Nat → List Nat) (params : Rev5EncryptParams)
    (e0 : Ent) (hH32 : ∀ x, (H x).length = 32) :
    ((kdfU H params e0).drop 40).take 8 = kdfUKS e0 := by
  unfold kdfU
  rw [List.drop_left'
      (show (H (kdfUserPwd params ++ kdfUVS e0) ++ kdfUVS e0).length = 40 by
        simp [hH32, kdfUVS_length]),
    List.take_of_length_le (le_of_eq (kdfUKS_length e0))]

theorem kdfO_take32 (H : List Nat → List Nat) (params : Rev5EncryptParams)
    (e0 : Ent) (hH32 : ∀ x, (H x).length = 32) :
    (kdfO H params e0).take 32 = H (kdfOwnerPwd params ++ kdfOVS e0 ++ kdfU H params e0) := by
  unfold kdfO
  rw [List.append_assoc, List.take_left' (hH32 _)]

theorem kdfO_valSalt (H : List Nat → List Nat) (params : Rev5EncryptParams)
    (e0 : Ent) (hH32 : ∀ x, (H x).length = 32) :
    ((kdfO H params e0).drop 32).take 8 = kdfOVS e0 := by
  unfold kdfO
  rw [List.append_assoc, List.drop_left' (hH32 _), List.take_left' (kdfOVS_length e0)]

theorem kdfO_keySalt (H : List Nat → List Nat) (params : Rev5EncryptParams)
    (e0 : Ent) (hH32 : ∀ x, (H x).length = 32) :
    ((kdfO H params e0).drop 40).take 8 = kdfOKS e0 := by
  unfold kdfO
  rw [List.drop_left'
      (show (H (kdfOwnerPwd params ++ kdfOVS e0 ++ kdfU H params e0) ++ kdfOVS e0).length = 40 by
        simp [hH32, kdfOVS_length]),
    List.take_of_length_le (le_of_eq (kdfOKS_length e0))]

theorem deriveFileKey_user (A : Cipher) (H : List Nat → List Nat)
    (params : Rev5EncryptParams) (e0 : Ent)
    (hH32 : ∀ x, (H x).length = 32)
    (hEncLen : ∀ k x, x.length = 16 → (A.enc k x).length = 16)
    (hDecLen : ∀ k x, x.length = 16 → (A.dec k x).length = 16)
    (hDecEnc : ∀ k x, x.length = 16 → A.dec k (A.enc k x) = x) :
    deriveFileKeyFromPassword A H params.userPassword (kdfU H params e0)
      (kdfO H params e0) (kdfOE A H params e0) (kdfUE A H params e0)
      = some (kdfFileKey e0) := by
  have hrt := aes256CbcNoPad_roundtrip A (H (kdfUserPwd params ++ kdfUKS e0))
    zero16 (kdfFileKey e0) hEncLen hDecLen hDecEnc (hH32 _) zero16_length 2
    (by rw [kdfFileKey_length])
  have h1 := kdfU_valSalt H params e0 hH32
  have h2 := kdfU_keySalt H params e0 hH32
  have h3 := kdfU_take32 H params e0 hH32
  simp only [kdfUserPwd] at hrt
  simp [deriveFileKeyFromPassword, compareBytes, h1, h2, h3, kdfUE, kdfUserPwd,
    hrt, kdfFileKey_length]

theorem deriveFileKey_owner (A : Cipher) (H : List Nat → List Nat)
    (params : Rev5EncryptParams) (e0 : Ent)
    (hH32 : ∀ x, (H x).length = 32)
    (hEncLen : ∀ k x, x.length = 16 → (A.enc k x).length = 16)
    (hDecLen : ∀ k x, x.length = 16 → (A.dec k x).length = 16)
    (hDecEnc : ∀ k x, x.length = 16 → A.dec k (A.enc k x) = x)
    (ho : params.ownerPassword ≠ [])
    (hcoll : H (preparePassword params.ownerPassword ++ kdfUVS e0)
        = H (kdfUserPwd params ++ kdfUVS e0) →
      preparePassword params.ownerPassword = kdfUserPwd params) :
    deriveFileKeyFromPassword A H params.ownerPassword (kdfU H params e0)
      (kdfO H params e0) (kdfOE A H params e0) (kdfUE A H params e0)
      = some (kdfFileKey e0) := by
  have hopwd : kdfOwnerPwd params = preparePassword params.ownerPassword := by
    unfold kdfOwnerPwd
    rw [if_neg ho]
  have h1 := kdfU_valSalt H params e0 hH32
  have h2 := kdfU_keySalt H params e0 hH32
  have h3 := kdfU_take32 H params e0 hH32
  have h4 := kdfO_valSalt H params e0 hH32
  have h5 := kdfO_keySalt H params e0 hH32
  have h6 := kdfO_take32 H params e0 hH32
  by_cases hc : H (preparePassword params.ownerPassword ++ kdfUVS e0)
      = H (kdfUserPwd params ++ kdfUVS e0)
  · -- The owner password agrees with the user password on the user validation
    -- hash, so (by hcoll) the prepared passwords agree and the user attempt
    -- already recovers the key.
    have hpw := hcoll hc
    simp only [kdfUserPwd] at hpw
    have hrt := aes256CbcNoPad_roundtrip A (H (kdfUserPwd params ++ kdfUKS e0))
      zero16 (kdfFileKey e0) hEncLen hDecLen hDecEnc (hH32 _) zero16_length 2
      (by rw [kdfFileKey_length])
    simp only [kdfUserPwd] at hrt
    simp [deriveFileKeyFromPassword, compareBytes, h1, h2, h3, kdfUE, kdfUserPwd,
      hpw, hrt, kdfFileKey_length]
  · -- The user attempt fails; the owner attempt recomputes the owner hash and
    -- wrapping key over the stored U and succeeds.
    have hrt := aes256CbcNoPad_roundtrip A
      (H (kdfOwnerPwd params ++ kdfOKS e0 ++ kdfU H params e0))
      zero16 (kdfFileKey e0) hEncLen hDecLen hDecEnc (hH32 _) zero16_length 2
      (by rw [kdfFileKey_length])
    rw [hopwd] at hrt
    simp only [List.append_assoc] at hrt
    have hcn : ¬ H (preparePassword params.ownerPassword ++ kdfUVS e0)
        = H (preparePassword params.userPassword ++ kdfUVS e0) := by
      simpa [kdfUserPwd] using hc
    simp [deriveFileKeyFromPassword, compareBytes, h1, h2, h3, h4, h5, h6, hcn,
      hopwd, kdfOE, kdfUserPwd, hrt, kdfFileKey_length]

theorem deriveFileKey_none (A : Cipher) (H : List Nat → List Nat)
    (params : Rev5EncryptParams) (e0 : Ent) (w : List Nat)
    (hH32 : ∀ x, (H x).length = 32)
    (hw1 : H (preparePassword w ++ kdfUVS e0) ≠ H (kdfUserPwd params ++ kdfUVS e0))
    (hw2 : H (preparePassword w ++ kdfOVS e0 ++ kdfU H params e0)
        ≠ H (kdfOwnerPwd params ++ kdfOVS e0 ++ kdfU H params e0)) :
    deriveFileKeyFromPassword A H w (kdfU H params e0) (kdfO H params e0)
      (kdfOE A H params e0) (kdfUE A H params e0) = none := by
  have h1 := kdfU_valSalt H params e0 hH32
  have h3 := kdfU_take32 H params e0 hH32
  have h4 := kdfO_valSalt H params e0 hH32
  have h6 := kdfO_take32 H params e0 hH32
  have hw1n : ¬ H (preparePassword w ++ kdfUVS e0)
      = H (kdfUserPwd params ++ kdfUVS e0) := hw1
  have hw2n : ¬ H (preparePassword w ++ (kdfOVS e0 ++ kdfU H params e0))
      = H (kdfOwnerPwd params ++ (kdfOVS e0 ++ kdfU H params e0)) := by
    simpa using hw2
  simp [deriveFileKeyFromPassword, compareBytes, h1, h3, h4, h6, hw1n, hw2n]

/-!
## Walker lemmas
-/

theorem encryptObject_eval (A : Cipher) (data fileKey : List Nat) (e : Ent)
    (hk : fileKey.length = 32) :
    encryptObject A data fileKey e =
      .ok ((getRandomBytes 16 e).1
            ++ subtleCbcEncrypt A fileKey (getRandomBytes 16 e).1 data,
        (getRandomBytes 16 e).2) := by
  simp [encryptObject,
    aes256CbcEncrypt_eval A fileKey _ data hk (getRandomBytes_length 16 e)]

theorem encryptedPayload_length_ge (A : Cipher) (fileKey iv data : List Nat)
    (hEncLen : ∀ k x, x.length = 16 → (A.enc k x).length = 16)
    (hiv : iv.length = 16) :
    32 ≤ (iv ++ subtleCbcEncrypt A fileKey iv data).length := by
  have h := subtleCbcEncrypt_length A fileKey iv data hEncLen hiv
  have hp := pad16_length_pos data
  simp [hiv, h]
  omega

theorem decryptObject_roundtrip (A : Cipher) (fileKey iv data : List Nat)
    (hEncLen : ∀ k x, x.length = 16 → (A.enc k x).length = 16)
    (hDecEnc : ∀ k x, x.length = 16 → A.dec k (A.enc k x) = x)
    (hk : fileKey.length = 32) (hiv : iv.length = 16) :
    decryptObject A (iv ++ subtleCbcEncrypt A fileKey iv data) fileKey
      = .ok data := by
  have hsub := subtleCbcEncrypt_length A fileKey iv data hEncLen hiv
  have hp := pad16_length_pos data
  unfold decryptObject
  rw [if_neg (by simp [hiv, hsub]; omega), List.take_left' hiv,
    List.drop_left' hiv]
  exact aes256CbcDecrypt_roundtrip A fileKey iv data hEncLen hDecEnc hk hiv

/-- Both walkers keep an entry with a reserved key (Length / Filter /
DecodeParms) unchanged, whatever its value. -/
theorem walkSkipKeyCase (A : Cipher) (fileKey : List Nat) (k : String)
    (v : PDFObject) (rest r : PDFEntries) (e e1 : Ent)
    (hkres : k = "Length" ∨ k = "Filter" ∨ k = "DecodeParms")
    (hencR : encryptStringsInDict A fileKey rest e = .ok (r, e1))
    (hdecR : stripTagEntries (decryptStringsInDict A fileKey r) = stripTagEntries rest)
    (hfltR : r.lookupKey "Filter" = rest.lookupKey "Filter") :
    encryptStringsInDict A fileKey (.cons k v rest) e = .ok (.cons k v r, e1)
    ∧ stripTagEntries (decryptStringsInDict A fileKey (.cons k v r))
        = stripTagEntries (.cons k v rest)
    ∧ (PDFEntries.cons k v r).lookupKey "Filter"
        = (PDFEntries.cons k v rest).lookupKey "Filter" := by
  cases v <;>
    exact ⟨by simp [encryptStringsInDict, hkres, hencR],
      by simp [decryptStringsInDict, hkres, stripTagEntries, hdecR],
      by simp only [PDFEntries.lookupKey]; split; exacts [rfl, hfltR]⟩

/-- Both walkers keep a non-container, non-string entry value unchanged. -/
theorem walkPlainValueCase (A : Cipher) (fileKey : List Nat) (k : String)
    (v : PDFObject) (rest r : PDFEntries) (e e1 : Ent)
    (hplain : (match v with
      | .string _ => False | .hexString _ => False
      | .dict _ => False | .array _ => False | _ => True))
    (hencR : encryptStringsInDict A fileKey rest e = .ok (r, e1))
    (hdecR : stripTagEntries (decryptStringsInDict A fileKey r) = stripTagEntries rest)
    (hfltR : r.lookupKey "Filter" = rest.lookupKey "Filter") :
    encryptStringsInDict A fileKey (.cons k v rest) e = .ok (.cons k v r, e1)
    ∧ stripTagEntries (decryptStringsInDict A fileKey (.cons k v r))
        = stripTagEntries (.cons k v rest)
    ∧ (PDFEntries.cons k v r).lookupKey "Filter"
        = (PDFEntries.cons k v rest).lookupKey "Filter" := by
  by_cases hkres : k = "Length" ∨ k = "Filter" ∨ k = "DecodeParms"
  · exact walkSkipKeyCase A fileKey k v rest r e e1 hkres hencR hdecR hfltR
  · cases v <;> simp only [] at hplain <;>
      exact ⟨by simp [encryptStringsInDict, hkres, hencR],
        by simp [decryptStringsInDict, hkres, stripTagEntries, hdecR],
        by simp only [PDFEntries.lookupKey]; split; exacts [rfl, hfltR]⟩

mutual

theorem walkRtEntries (A : Cipher) (fileKey : List Nat)
    (hk : fileKey.length = 32)
    (hEncLen : ∀ k x, x.length = 16 → (A.enc k x).length = 16)
    (hDecEnc : ∀ k x, x.length = 16 → A.dec k (A.enc k x) = x) :
    ∀ (es : PDFEntries) (e : Ent),
      ∃ es2 e2, encryptStringsInDict A fileKey es e = .ok (es2, e2)
        ∧ stripTagEntries (decryptStringsInDict A fileKey es2) = stripTagEntries es
        ∧ es2.lookupKey "Filter" = es.lookupKey "Filter"
  | .nil, e =>
    ⟨.nil, e, by simp [encryptStringsInDict], by simp [decryptStringsInDict], rfl⟩
  | .cons k v rest, e => by
    cases v with
    | string b =>
      by_cases hkres : k = "Length" ∨ k = "Filter" ∨ k = "DecodeParms"
      · obtain ⟨r, e1, hencR, hdecR, hfltR⟩ :=
          walkRtEntries A fileKey hk hEncLen hDecEnc rest e
        obtain ⟨p1, p2, p3⟩ :=
          walkSkipKeyCase A fileKey k (.string b) rest r e e1 hkres hencR hdecR hfltR
        exact ⟨_, _, p1, p2, p3⟩
      · push_neg at hkres
        obtain ⟨hk1, hk2, hk3⟩ := hkres
        obtain ⟨r, e2, hencR, hdecR, hfltR⟩ :=
          walkRtEntries A fileKey hk hEncLen hDecEnc rest (getRandomBytes 16 e).2
        have hobj := encryptObject_eval A b fileKey e hk
        have hiv := getRandomBytes_length 16 e
        have hge := encryptedPayload_length_ge A fileKey (getRandomBytes 16 e).1 b hEncLen hiv
        have hdec := decryptObject_roundtrip A fileKey (getRandomBytes 16 e).1 b
          hEncLen hDecEnc hk hiv
        rw [List.length_append] at hge
        have hlt : ¬ ((getRandomBytes 16 e).1.length
            + (subtleCbcEncrypt A fileKey (getRandomBytes 16 e).1 b).length < 32) := by
          omega
        refine ⟨.cons k (.hexString ((getRandomBytes 16 e).1
          ++ subtleCbcEncrypt A fileKey (getRandomBytes 16 e).1 b)) r, e2, ?_, ?_, ?_⟩
        · simp [encryptStringsInDict, hk1, hk2, hk3, hobj, hencR]
        · simp [decryptStringsInDict, hk1, hk2, hk3, hdec, stripTagEntries, stripTag,
            hdecR, hlt]
        · simp [PDFEntries.lookupKey, hk2, hfltR]
    | hexString b =>
      by_cases hkres : k = "Length" ∨ k = "Filter" ∨ k = "DecodeParms"
      · obtain ⟨r, e1, hencR, hdecR, hfltR⟩ :=
          walkRtEntries A fileKey hk hEncLen hDecEnc rest e
        obtain ⟨p1, p2, p3⟩ :=
          walkSkipKeyCase A fileKey k (.hexString b) rest r e e1 hkres hencR hdecR hfltR
        exact ⟨_, _, p1, p2, p3⟩
      · push_neg at hkres
        obtain ⟨hk1, hk2, hk3⟩ := hkres
        obtain ⟨r, e2, hencR, hdecR, hfltR⟩ :=
          walkRtEntries A fileKey hk hEncLen hDecEnc rest (getRandomBytes 16 e).2
        have hobj := encryptObject_eval A b fileKey e hk
        have hiv := getRandomBytes_length 16 e
        have hge := encryptedPayload_length_ge A fileKey (getRandomBytes 16 e).1 b hEncLen hiv
        have hdec := decryptObject_roundtrip A fileKey (getRandomBytes 16 e).1 b
          hEncLen hDecEnc hk hiv
        rw [List.length_append] at hge
        have hlt : ¬ ((getRandomBytes 16 e).1.length
            + (subtleCbcEncrypt A fileKey (getRandomBytes 16 e).1 b).length < 32) := by
          omega
        refine ⟨.cons k (.hexString ((getRandomBytes 16 e).1
          ++ subtleCbcEncrypt A fileKey (getRandomBytes 16 e).1 b)) r, e2, ?_, ?_, ?_⟩
        · simp [encryptStringsInDict, hk1, hk2, hk3, hobj, hencR]
        · simp [decryptStringsInDict, hk1, hk2, hk3, hdec, stripTagEntries, stripTag,
            hdecR, hlt]
        · simp [PDFEntries.lookupKey, hk2, hfltR]
    | dict es =>
      by_cases hkres : k = "Length" ∨ k = "Filter" ∨ k = "DecodeParms"
      · obtain ⟨r, e1, hencR, hdecR, hfltR⟩ :=
          walkRtEntries A fileKey hk hEncLen hDecEnc rest e
        obtain ⟨p1, p2, p3⟩ :=
          walkSkipKeyCase A fileKey k (.dict es) rest r e e1 hkres hencR hdecR hfltR
        exact ⟨_, _, p1, p2, p3⟩
      · push_neg at hkres
        obtain ⟨hk1, hk2, hk3⟩ := hkres
        obtain ⟨es2, e1, hencV, hdecV, hfltV⟩ :=
          walkRtEntries A fileKey hk hEncLen hDecEnc es e
        obtain ⟨r, e2, hencR, hdecR, hfltR⟩ :=
          walkRtEntries A fileKey hk hEncLen hDecEnc rest e1
        refine ⟨.cons k (.dict es2) r, e2, ?_, ?_, ?_⟩
        · simp [encryptStringsInDict, hk1, hk2, hk3, hencV, hencR]
        · simp [decryptStringsInDict, hk1, hk2, hk3, stripTagEntries, stripTag,
            hdecV, hdecR]
        · simp [PDFEntries.lookupKey, hk2, hfltR]
    | array els =>
      by_cases hkres : k = "Length" ∨ k = "Filter" ∨ k = "DecodeParms"
      · obtain ⟨r, e1, hencR, hdecR, hfltR⟩ :=
          walkRtEntries A fileKey hk hEncLen hDecEnc rest e
        obtain ⟨p1, p2, p3⟩ :=
          walkSkipKeyCase A fileKey k (.array els) rest r e e1 hkres hencR hdecR hfltR
        exact ⟨_, _, p1, p2, p3⟩
      · push_neg at hkres
        obtain ⟨hk1, hk2, hk3⟩ := hkres
        obtain ⟨els2, e1, hencV, hdecV⟩ :=
          walkRtList A fileKey hk hEncLen hDecEnc els e
        obtain ⟨r, e2, hencR, hdecR, hfltR⟩ :=
          walkRtEntries A fileKey hk hEncLen hDecEnc rest e1
        refine ⟨.cons k (.array els2) r, e2, ?_, ?_, ?_⟩
        · simp [encryptStringsInDict, hk1, hk2, hk3, hencV, hencR]
        · simp [decryptStringsInDict, hk1, hk2, hk3, stripTagEntries, stripTag,
            hdecV, hdecR]
        · simp [PDFEntries.lookupKey, hk2, hfltR]
    | stream d c =>
      obtain ⟨r, e1, hencR, hdecR, hfltR⟩ :=
        walkRtEntries A fileKey hk hEncLen hDecEnc rest e
      obtain ⟨p1, p2, p3⟩ := walkPlainValueCase A fileKey k (.stream d c) rest r e e1
        trivial hencR hdecR hfltR
      exact ⟨_, _, p1, p2, p3⟩
    | name s =>
      obtain ⟨r, e1, hencR, hdecR, hfltR⟩ :=
        walkRtEntries A fileKey hk hEncLen hDecEnc rest e
      obtain ⟨p1, p2, p3⟩ := walkPlainValueCase A fileKey k (.name s) rest r e e1
        trivial hencR hdecR hfltR
      exact ⟨_, _, p1, p2, p3⟩
    | number n =>
      obtain ⟨r, e1, hencR, hdecR, hfltR⟩ :=
        walkRtEntries A fileKey hk hEncLen hDecEnc rest e
      obtain ⟨p1, p2, p3⟩ := walkPlainValueCase A fileKey k (.number n) rest r e e1
        trivial hencR hdecR hfltR
      exact ⟨_, _, p1, p2, p3⟩
    | boolean bb =>
      obtain ⟨r, e1, hencR, hdecR, hfltR⟩ :=
        walkRtEntries A fileKey hk hEncLen hDecEnc rest e
      obtain ⟨p1, p2, p3⟩ := walkPlainValueCase A fileKey k (.boolean bb) rest r e e1
        trivial hencR hdecR hfltR
      exact ⟨_, _, p1, p2, p3⟩
    | null =>
      obtain ⟨r, e1, hencR, hdecR, hfltR⟩ :=
        walkRtEntries A fileKey hk hEncLen hDecEnc rest e
      obtain ⟨p1, p2, p3⟩ := walkPlainValueCase A fileKey k .null rest r e e1
        trivial hencR hdecR hfltR
      exact ⟨_, _, p1, p2, p3⟩

theorem walkRtList (A : Cipher) (fileKey : List Nat)
    (hk : fileKey.length = 32)
    (hEncLen : ∀ k x, x.length = 16 → (A.enc k x).length = 16)
    (hDecEnc : ∀ k x, x.length = 16 → A.dec k (A.enc k x) = x) :
    ∀ (els : PDFObjList) (e : Ent),
      ∃ els2 e2, encryptStringsInArray A fileKey els e = .ok (els2, e2)
        ∧ stripTagList (decryptStringsInArray A fileKey els2) = stripTagList els
  | .nil, e =>
    ⟨.nil, e, by simp [encryptStringsInArray], by simp [decryptStringsInArray]⟩
  | .cons o rest, e => by
    cases o with
    | dict es =>
      obtain ⟨es2, e1, hencV, hdecV, hfltV⟩ :=
        walkRtEntries A fileKey hk hEncLen hDecEnc es e
      obtain ⟨r, e2, hencR, hdecR⟩ := walkRtList A fileKey hk hEncLen hDecEnc rest e1
      exact ⟨.cons (.dict es2) r, e2,
        by simp [encryptStringsInArray, hencV, hencR],
        by simp [decryptStringsInArray, stripTagList, stripTag, hdecV, hdecR]⟩
    | array els =>
      obtain ⟨els2, e1, hencV, hdecV⟩ := walkRtList A fileKey hk hEncLen hDecEnc els e
      obtain ⟨r, e2, hencR, hdecR⟩ := walkRtList A fileKey hk hEncLen hDecEnc rest e1
      exact ⟨.cons (.array els2) r, e2,
        by simp [encryptStringsInArray, hencV, hencR],
        by simp [decryptStringsInArray, stripTagList, stripTag, hdecV, hdecR]⟩
    | stream d c =>
      obtain ⟨r, e1, hencR, hdecR⟩ := walkRtList A fileKey hk hEncLen hDecEnc rest e
      exact ⟨.cons (.stream d c) r, e1,
        by simp [encryptStringsInArray, hencR],
        by simp [decryptStringsInArray, stripTagList, hdecR]⟩
    | string b =>
      obtain ⟨r, e1, hencR, hdecR⟩ := walkRtList A fileKey hk hEncLen hDecEnc rest e
      exact ⟨.cons (.string b) r, e1,
        by simp [encryptStringsInArray, hencR],
        by simp [decryptStringsInArray, stripTagList, hdecR]⟩
    | hexString b =>
      obtain ⟨r, e1, hencR, hdecR⟩ := walkRtList A fileKey hk hEncLen hDecEnc rest e
      exact ⟨.cons (.hexString b) r, e1,
        by simp [encryptStringsInArray, hencR],
        by simp [decryptStringsInArray, stripTagList, hdecR]⟩
    | name s =>
      obtain ⟨r, e1, hencR, hdecR⟩ := walkRtList A fileKey hk hEncLen hDecEnc rest e
      exact ⟨.cons (.name s) r, e1,
        by simp [encryptStringsInArray, hencR],
        by simp [decryptStringsInArray, stripTagList, hdecR]⟩
    | number n =>
      obtain ⟨r, e1, hencR, hdecR⟩ := walkRtList A fileKey hk hEncLen hDecEnc rest e
      exact ⟨.cons (.number n) r, e1,
        by simp [encryptStringsInArray, hencR],
        by simp [decryptStringsInArray, stripTagList, hdecR]⟩
    | boolean bb =>
      obtain ⟨r, e1, hencR, hdecR⟩ := walkRtList A fileKey hk hEncLen hDecEnc rest e
      exact ⟨.cons (.boolean bb) r, e1,
        by simp [encryptStringsInArray, hencR],
        by simp [decryptStringsInArray, stripTagList, hdecR]⟩
    | null =>
      obtain ⟨r, e1, hencR, hdecR⟩ := walkRtList A fileKey hk hEncLen hDecEnc rest e
      exact ⟨.cons .null r, e1,
        by simp [encryptStringsInArray, hencR],
        by simp [decryptStringsInArray, stripTagList, hdecR]⟩

end

theorem walkRtIndirect (A : Cipher) (fileKey : List Nat)
    (hk : fileKey.length = 32)
    (hEncLen : ∀ k x, x.length = 16 → (A.enc k x).length = 16)
    (hDecEnc : ∀ k x, x.length = 16 → A.dec k (A.enc k x) = x) :
    ∀ (obj : PDFObject) (e : Ent),
      ∃ obj2 e2, encryptIndirectObject A fileKey obj e = .ok (obj2, e2)
        ∧ ∃ obj3, decryptIndirectObject A fileKey obj2 = .ok obj3
          ∧ stripTag obj3 = stripTag obj := by
  intro obj e
  by_cases hskip : skipsCryptoWalk obj = true
  · exact ⟨obj, e, by simp [encryptIndirectObject, hskip], obj,
      by simp [decryptIndirectObject, hskip], rfl⟩
  · rw [Bool.not_eq_true] at hskip
    cases obj with
    | stream d c =>
      have hobj := encryptObject_eval A c fileKey e hk
      have hiv := getRandomBytes_length 16 e
      have hdec := decryptObject_roundtrip A fileKey (getRandomBytes 16 e).1 c
        hEncLen hDecEnc hk hiv
      refine ⟨.stream d ((getRandomBytes 16 e).1
        ++ subtleCbcEncrypt A fileKey (getRandomBytes 16 e).1 c),
        (getRandomBytes 16 e).2, ?_, .stream d c, ?_, rfl⟩
      · simp [encryptIndirectObject, hskip, hobj]
      · simp [decryptIndirectObject, skipsCryptoWalk, hdec]
    | dict es =>
      obtain ⟨es2, e2, henc, hdec, hflt⟩ :=
        walkRtEntries A fileKey hk hEncLen hDecEnc es e
      have hskip2 : skipsCryptoWalk (.dict es2) = false := by
        rw [show skipsCryptoWalk (.dict es2) = skipsCryptoWalk (.dict es) by
          simp [skipsCryptoWalk, filterIsStandard, hflt]]
        exact hskip
      refine ⟨.dict es2, e2, ?_, .dict (decryptStringsInDict A fileKey es2), ?_, ?_⟩
      · simp [encryptIndirectObject, hskip, henc]
      · simp [decryptIndirectObject, hskip2]
      · simp [stripTag, hdec]
    | array els =>
      obtain ⟨els2, e2, henc, hdec⟩ := walkRtList A fileKey hk hEncLen hDecEnc els e
      refine ⟨.array els2, e2, ?_, .array (decryptStringsInArray A fileKey els2), ?_, ?_⟩
      · simp [encryptIndirectObject, hskip, henc]
      · simp [decryptIndirectObject, skipsCryptoWalk]
      · simp [stripTag, hdec]
    | string b =>
      exact ⟨.string b, e, by simp [encryptIndirectObject, hskip],
        .string b, by simp [decryptIndirectObject, skipsCryptoWalk], rfl⟩
    | hexString b =>
      exact ⟨.hexString b, e, by simp [encryptIndirectObject, hskip],
        .hexString b, by simp [decryptIndirectObject, skipsCryptoWalk], rfl⟩
    | name s =>
      exact ⟨.name s, e, by simp [encryptIndirectObject, hskip],
        .name s, by simp [decryptIndirectObject, skipsCryptoWalk], rfl⟩
    | number n =>
      exact ⟨.number n, e, by simp [encryptIndirectObject, hskip],
        .number n, by simp [decryptIndirectObject, skipsCryptoWalk], rfl⟩
    | boolean bb =>
      exact ⟨.boolean bb, e, by simp [encryptIndirectObject, hskip],
        .boolean bb, by simp [decryptIndirectObject, skipsCryptoWalk], rfl⟩
    | null =>
      exact ⟨.null, e, by simp [encryptIndirectObject, hskip],
        .null, by simp [decryptIndirectObject, skipsCryptoWalk], rfl⟩

theorem walkRtAll (A : Cipher) (fileKey : List Nat)
    (hk : fileKey.length = 32)
    (hEncLen : ∀ k x, x.length = 16 → (A.enc k x).length = 16)
    (hDecEnc : ∀ k x, x.length = 16 → A.dec k (A.enc k x) = x) :
    ∀ (objs : List PDFObject) (e : Ent),
      ∃ objs2 e2, encryptAllObjects A fileKey objs e = .ok (objs2, e2)
        ∧ ∃ objs3, decryptAllObjects A fileKey objs2 = .ok objs3
          ∧ objs3.map stripTag = objs.map stripTag
          ∧ objs2.length = objs.length := by
  intro objs
  induction objs with
  | nil =>
    intro e
    exact ⟨[], e, by simp [encryptAllObjects], [], by simp [decryptAllObjects],
      by simp, rfl⟩
  | cons o rest ih =>
    intro e
    obtain ⟨o2, e1, henc1, o3, hdec1, hstrip1⟩ :=
      walkRtIndirect A fileKey hk hEncLen hDecEnc o e
    obtain ⟨r2, e2, henc2, r3, hdec2, hstrip2, hlen⟩ := ih e1
    refine ⟨o2 :: r2, e2, ?_, o3 :: r3, ?_, ?_, ?_⟩
    · simp [encryptAllObjects, henc1, henc2]
    · simp [decryptAllObjects, hdec1, hdec2]
    · simp [hstrip1, hstrip2]
    · simp [hlen]

theorem decryptAllObjects_append (A : Cipher) (fileKey : List Nat)
    (xs ys : List PDFObject) (xs2 ys2 : List PDFObject)
    (hx : decryptAllObjects A fileKey xs = .ok xs2)
    (hy : decryptAllObjects A fileKey ys = .ok ys2) :
    decryptAllObjects A fileKey (xs ++ ys) = .ok (xs2 ++ ys2) := by
  induction xs generalizing xs2 with
  | nil =>
    simp only [decryptAllObjects] at hx
    cases hx
    simpa using hy
  | cons o rest ih =>
    simp only [List.cons_append, decryptAllObjects] at hx ⊢
    cases hobj : decryptIndirectObject A fileKey o with
    | error err => rw [hobj] at hx; cases hx
    | ok o2 =>
      rw [hobj] at hx
      dsimp only at hx ⊢
      cases hrest : decryptAllObjects A fileKey rest with
      | error err => rw [hrest] at hx; cases hx
      | ok r2 =>
        rw [hrest] at hx
        rw [List.append_eq, ih r2 hrest]
        cases hx
        rfl

/-!
## Pipeline lemmas
-/

theorem buildEncryptEntries_R (keys : Rev5Keys) (p : Int) (em : Bool) :
    (buildEncryptEntries keys p em).lookupKey "R" = some (.number 5) := rfl

theorem buildEncryptEntries_V (keys : Rev5Keys) (p : Int) (em : Bool) :
    (buildEncryptEntries keys p em).lookupKey "V" = some (.number 5) := rfl

theorem buildEncryptEntries_O (keys : Rev5Keys) (p : Int) (em : Bool) :
    (buildEncryptEntries keys p em).lookupKey "O" = some (.hexString keys.O) := rfl

theorem buildEncryptEntries_U (keys : Rev5Keys) (p : Int) (em : Bool) :
    (buildEncryptEntries keys p em).lookupKey "U" = some (.hexString keys.U) := rfl

theorem buildEncryptEntries_OE (keys : Rev5Keys) (p : Int) (em : Bool) :
    (buildEncryptEntries keys p em).lookupKey "OE" = some (.hexString keys.OE) := rfl

theorem buildEncryptEntries_UE (keys : Rev5Keys) (p : Int) (em : Bool) :
    (buildEncryptEntries keys p em).lookupKey "UE" = some (.hexString keys.UE) := rfl

theorem buildEncryptEntries_Perms (keys : Rev5Keys) (p : Int) (em : Bool) :
    (buildEncryptEntries keys p em).lookupKey "Perms" = some (.hexString keys.Perms) := rfl

theorem buildEncryptEntries_standard (keys : Rev5Keys) (p : Int) (em : Bool) :
    filterIsStandard (buildEncryptEntries keys p em) = true := rfl

theorem buildEncryptDict_decrypt_skipped (A : Cipher) (fileKey : List Nat)
    (keys : Rev5Keys) (p : Int) (em : Bool) :
    decryptIndirectObject A fileKey (buildEncryptDict keys p em)
      = .ok (buildEncryptDict keys p em) := by
  simp [decryptIndirectObject, buildEncryptDict, skipsCryptoWalk,
    buildEncryptEntries_standard]

theorem encryptPDF_eval (A : Cipher) (H : List Nat → List Nat) (doc : Doc)
    (u : List Nat) (oPw : Option (List Nat)) (opts : EncryptOptions) (e0 : Ent)
    (objs : List PDFObject) (e3 : Ent)
    (hH32 : ∀ x, (H x).length = 32)
    (hEncLen : ∀ k x, x.length = 16 → (A.enc k x).length = 16)
    (hwalk : encryptAllObjects A (kdfFileKey (encEntropy doc e0)) doc.objects
        (kdfEntF (encEntropy doc e0)) = .ok (objs, e3)) :
    encryptPDF A H doc u oPw opts e0 =
      .ok ({ objects := objs ++ [buildEncryptDict
              (kdfKeys A H (encParams u oPw opts) (encEntropy doc e0))
              (opts.permissions.getD (-4)) (opts.encryptMetadata.getD true)],
             trailerEncrypt := some objs.length,
             trailerID := encTrailerID doc e0 }, e3) := by
  have hck := computeRev5Keys_eval A H (encParams u oPw opts) (encEntropy doc e0)
    hH32 hEncLen
  cases hid : doc.trailerID with
  | none =>
    simp only [encEntropy, hid] at hck hwalk
    simp only [encParams] at hck
    simp [encryptPDF, hid, hck, hwalk, encTrailerID, encEntropy, encParams, kdfKeys]
  | some fid =>
    simp only [encEntropy, hid] at hck hwalk
    simp only [encParams] at hck
    simp [encryptPDF, hid, hck, hwalk, encTrailerID, encEntropy, encParams, kdfKeys]

theorem decryptPDF_on_encrypted (A : Cipher) (H : List Nat → List Nat)
    (P : Rev5EncryptParams) (e : Ent) (objs : List PDFObject) (p : Int)
    (em : Bool) (tid : Option (List Nat)) (w : List Nat)
    (hH32 : ∀ x, (H x).length = 32)
    (hEncLen : ∀ k x, x.length = 16 → (A.enc k x).length = 16) :
    decryptPDF A H
      { objects := objs ++ [buildEncryptDict (kdfKeys A H P e) p em],
        trailerEncrypt := some objs.length, trailerID := tid } w
    = match deriveFileKeyFromPassword A H w (kdfU H P e) (kdfO H P e)
        (kdfOE A H P e) (kdfUE A H P e) with
      | none => .error .wrongPassword
      | some fileKey =>
        match decryptAllObjects A fileKey
            (objs ++ [buildEncryptDict (kdfKeys A H P e) p em]) with
        | .error err => .error err
        | .ok objs2 =>
          .ok ({ objects := objs2, trailerEncrypt := none, trailerID := tid } : Doc) := by
  have href : (objs ++ [buildEncryptDict (kdfKeys A H P e) p em])[objs.length]?
      = some (buildEncryptDict (kdfKeys A H P e) p em) := by
    simp
  simp only [buildEncryptDict] at href
  simp only [decryptPDF, buildEncryptDict, href]
  rw [show dictNumberOrZero (buildEncryptEntries (kdfKeys A H P e) p em) "R" = 5 by
    simp [dictNumberOrZero, buildEncryptEntries_R]]
  rw [show dictNumberOrZero (buildEncryptEntries (kdfKeys A H P e) p em) "V" = 5 by
    simp [dictNumberOrZero, buildEncryptEntries_V]]
  rw [if_neg (by simp)]
  rw [show getEncryptBytes (buildEncryptEntries (kdfKeys A H P e) p em) "O"
      = some (kdfO H P e) by simp [getEncryptBytes, buildEncryptEntries_O, kdfKeys]]
  rw [show getEncryptBytes (buildEncryptEntries (kdfKeys A H P e) p em) "U"
      = some (kdfU H P e) by simp [getEncryptBytes, buildEncryptEntries_U, kdfKeys]]
  rw [show getEncryptBytes (buildEncryptEntries (kdfKeys A H P e) p em) "OE"
      = some (kdfOE A H P e) by simp [getEncryptBytes, buildEncryptEntries_OE, kdfKeys]]
  rw [show getEncryptBytes (buildEncryptEntries (kdfKeys A H P e) p em) "UE"
      = some (kdfUE A H P e) by simp [getEncryptBytes, buildEncryptEntries_UE, kdfKeys]]
  dsimp only
  rw [if_neg (by
    simp [kdfO_length H P e hH32, kdfU_length H P e hH32,
      kdfOE_length A H P e hEncLen, kdfUE_length A H P e hEncLen])]

/-!
## Error-surface lemmas
-/

theorem aes256CbcDecrypt_error_ne_wrongPassword (A : Cipher)
    (key iv ct : List Nat) (err : PDFError)
    (h : aes256CbcDecrypt A key iv ct = .error err) :
    err ≠ PDFError.wrongPassword := by
  unfold aes256CbcDecrypt at h
  split at h
  · cases h
    simp
  · split at h
    · cases h
      simp
    · split at h
      · cases h
      · cases h
        simp

theorem decryptObject_error_ne_wrongPassword (A : Cipher)
    (data fileKey : List Nat) (err : PDFError)
    (h : decryptObject A data fileKey = .error err) :
    err ≠ PDFError.wrongPassword := by
  unfold decryptObject at h
  split at h
  · cases h
    simp
  · exact aes256CbcDecrypt_error_ne_wrongPassword A fileKey _ _ err h

theorem decryptIndirectObject_error_ne_wrongPassword (A : Cipher)
    (fileKey : List Nat) (obj : PDFObject) (err : PDFError)
    (h : decryptIndirectObject A fileKey obj = .error err) :
    err ≠ PDFError.wrongPassword := by
  cases obj with
  | stream d c =>
    unfold decryptIndirectObject at h
    split at h
    · cases h
    · dsimp only at h
      split at h
      · cases h
      · cases h
        rename_i heq
        exact decryptObject_error_ne_wrongPassword A c fileKey err heq
  | dict es =>
    unfold decryptIndirectObject at h
    split at h
    · cases h
    · dsimp only at h
      cases h
  | array els =>
    unfold decryptIndirectObject at h
    split at h
    · cases h
    · dsimp only at h
      cases h
  | string b =>
    unfold decryptIndirectObject at h
    split at h
    · cases h
    · dsimp only at h
      cases h
  | hexString b =>
    unfold decryptIndirectObject at h
    split at h
    · cases h
    · dsimp only at h
      cases h
  | name s =>
    unfold decryptIndirectObject at h
    split at h
    · cases h
    · dsimp only at h
      cases h
  | number n =>
    unfold decryptIndirectObject at h
    split at h
    · cases h
    · dsimp only at h
      cases h
  | boolean bb =>
    unfold decryptIndirectObject at h
    split at h
    · cases h
    · dsimp only at h
      cases h
  | null =>
    unfold decryptIndirectObject at h
    split at h
    · cases h
    · dsimp only at h
      cases h

theorem decryptAllObjects_error_ne_wrongPassword (A : Cipher)
    (fileKey : List Nat) :
    ∀ (objs : List PDFObject) (err : PDFError),
      decryptAllObjects A fileKey objs = .error err →
      err ≠ PDFError.wrongPassword := by
  intro objs
  induction objs with
  | nil =>
    intro err h
    simp [decryptAllObjects] at h
  | cons o rest ih =>
    intro err h
    simp only [decryptAllObjects] at h
    split at h
    · split at h
      · cases h
      · cases h
        rename_i heq
        exact ih err heq
    · cases h
      rename_i heq
      exact decryptIndirectObject_error_ne_wrongPassword A fileKey o err heq

theorem nat_and_255 (m : Nat) : m &&& 255 = m % 256 := by
  have h := Nat.and_pow_two_sub_one_eq_mod m 8
  norm_num at h
  exact h

theorem permsBlockSrc_layout (permissions : Int) (encryptMetadata : Bool)
    (rnd : List Nat) :
    permsBlockSrc permissions encryptMetadata rnd
      = permsLELayout permissions ++ [255, 255, 255, 255]
        ++ [if encryptMetadata then 84 else 70] ++ [97, 100, 98] ++ rnd := by
  have hs : ∀ m k : Nat, m >>> k = m / 2 ^ k := fun m k =>
    Nat.shiftRight_eq_div_pow m k
  simp only [permsBlockSrc, permsLELayout, nat_and_255, hs]
  norm_num

/-!
## Claim theorems
-/

/-- C5: for every 32-byte key and 16-byte block, the unpadded single-block
decrypt inverts the unpadded single-block encrypt: `aes256EcbEncrypt` yields
the raw block-cipher image, `aes256EcbDecrypt` of that image returns the
original block, and the decryption works by appending the second ciphertext
block `encrypt(key, fullPaddingBlock XOR c)` so that padded two-block
decryption yields the block with a valid padding block stripped after it. -/
theorem c5_unpadded_single_block_inverse (A : Cipher) (key b : List Nat)
    (hEncLen : ∀ k x, x.length = 16 → (A.enc k x).length = 16)
    (hDecLen : ∀ k x, x.length = 16 → (A.dec k x).length = 16)
    (hDecEnc : ∀ k x, x.length = 16 → A.dec k (A.enc k x) = x)
    (hk : key.length = 32) (hb : b.length = 16) :
    aes256EcbEncrypt A key b = .ok (A.enc key b)
    ∧ aes256EcbDecrypt A key (A.enc key b) = .ok b
    ∧ subtleCbcDecrypt A key zero16
        (A.enc key b ++ A.enc key (xor16 fullPad16 (A.enc key b))) = some b := by
  have hc : (A.enc key b).length = 16 := hEncLen key b hb
  have h1 := aes256EcbEncrypt_eval A key b hEncLen hk hb
  have h2 : aes256EcbDecrypt A key (A.enc key b) = .ok b := by
    rw [aes256EcbDecrypt_eval A key _ hEncLen hDecLen hDecEnc hk hc,
      hDecEnc key b hb]
  refine ⟨h1, h2, ?_⟩
  have hx : (xor16 fullPad16 (A.enc key b)).length = 16 := by
    rw [xor16_length, fullPad16_length, hc]; simp
  have hc2 := aes256EcbEncrypt_eval A key _ hEncLen hk hx
  unfold aes256EcbDecrypt at h2
  rw [if_neg (by simp [hc, hk]), hc2] at h2
  dsimp only at h2
  cases hsub : subtleCbcDecrypt A key zero16
      (A.enc key b ++ A.enc key (xor16 fullPad16 (A.enc key b))) with
  | none => rw [hsub] at h2; cases h2
  | some m =>
    rw [hsub] at h2
    dsimp only at h2
    cases h2
    rfl

/-- Key and block used to evaluate the C5 theorem on a concrete input. -/
theorem c5_witness :
    aes256EcbEncrypt toyCipher (List.replicate 32 1) (List.replicate 16 7)
      = .ok (toyCipher.enc (List.replicate 32 1) (List.replicate 16 7))
    ∧ aes256EcbDecrypt toyCipher (List.replicate 32 1)
        (toyCipher.enc (List.replicate 32 1) (List.replicate 16 7))
      = .ok (List.replicate 16 7)
    ∧ subtleCbcDecrypt toyCipher (List.replicate 32 1) zero16
        (toyCipher.enc (List.replicate 32 1) (List.replicate 16 7)
          ++ toyCipher.enc (List.replicate 32 1)
            (xor16 fullPad16 (toyCipher.enc (List.replicate 32 1) (List.replicate 16 7))))
      = some (List.replicate 16 7) :=
  c5_unpadded_single_block_inverse toyCipher (List.replicate 32 1)
    (List.replicate 16 7) toyCipher_enc_length toyCipher_dec_length
    toyCipher_dec_enc (by simp) (by simp)

/-- C3 as stated is false: a payload leaf with 16 bytes of plaintext encrypts
to 48 bytes (16-byte IV plus data block plus full padding block), not to
32 bytes. -/
theorem c3_sixteen_byte_payload_is_48_not_32 :
    (match encryptObject toyCipher c3Data c3Key c3Ent with
      | .ok (out, _) => out.length
      | .error _ => 0) = 48
    ∧ (48 : Nat) ≠ 32 := by
  constructor
  · rfl
  · decide

/-- C3 (amended): encrypting a payload leaf whose plaintext is exactly
16 bytes produces an encrypted payload of exactly 48 bytes — the 16-byte IV
block plus two ciphertext blocks, because a full-block plaintext still gets
one full padding block appended — and decrypting that payload returns the
original 16 bytes. -/
theorem c3_sixteen_byte_payload_roundtrip (A : Cipher) (key data : List Nat)
    (e : Ent)
    (hEncLen : ∀ k x, x.length = 16 → (A.enc k x).length = 16)
    (hDecEnc : ∀ k x, x.length = 16 → A.dec k (A.enc k x) = x)
    (hk : key.length = 32) (hd : data.length = 16) :
    ∃ out e2, encryptObject A data key e = .ok (out, e2)
      ∧ out.length = 48
      ∧ decryptObject A out key = .ok data := by
  have hiv := getRandomBytes_length 16 e
  have hobj := encryptObject_eval A data key e hk
  refine ⟨_, _, hobj, ?_,
    decryptObject_roundtrip A key _ data hEncLen hDecEnc hk hiv⟩
  have hsub := subtleCbcEncrypt_length A key _ data hEncLen hiv
  rw [List.length_append, hiv, hsub, pad16_length, hd]

/-- Concrete evaluation of the amended C3 theorem. -/
theorem c3_sixteen_byte_payload_roundtrip_witness :
    ∃ out e2, encryptObject toyCipher c3Data c3Key c3Ent = .ok (out, e2)
      ∧ out.length = 48
      ∧ decryptObject toyCipher out c3Key = .ok c3Data :=
  c3_sixteen_byte_payload_roundtrip toyCipher c3Key c3Data c3Ent
    toyCipher_enc_length toyCipher_dec_enc (by simp [c3Key]) (by simp [c3Data])

/-- C7: whenever the resolved encryption descriptor identifies a
revision/cipher pair other than R = 5, V = 5, decryptPDF fails with the
`unsupportedEncryption` outcome carrying that pair.  The failure happens in
the prelude, before `decryptAllObjects` ever runs, and the model is pure, so
the input document is untouched. -/
theorem c7_unsupported_scheme_fails_fast (A : Cipher) (H : List Nat → List Nat)
    (doc : Doc) (w : List Nat) (i : Nat) (entries : PDFEntries)
    (href : doc.trailerEncrypt = some i)
    (hdict : doc.objects[i]? = some (.dict entries))
    (hRV : ¬ (dictNumberOrZero entries "R" = 5 ∧ dictNumberOrZero entries "V" = 5)) :
    decryptPDF A H doc w
      = .error (.unsupportedEncryption (dictNumberOrZero entries "R")
          (dictNumberOrZero entries "V")) := by
  simp only [decryptPDF, href, hdict]
  rw [if_pos (by tauto)]

/-- Concrete evaluation of C7 on a descriptor with R = 4, V = 4. -/
theorem c7_unsupported_scheme_witness :
    decryptPDF toyCipher toyHash c7Doc [1]
      = .error (.unsupportedEncryption 4 4) := by
  have h := c7_unsupported_scheme_fails_fast toyCipher toyHash c7Doc [1] 0
    (.cons "Filter" (.name "Standard")
    (.cons "V" (.number 4)
    (.cons "R" (.number 4) .nil)))
    (by rfl) (by rfl) (by decide)
  simpa using h

/-- C10: the walkers' skip test is a name test on plain dictionaries: any
indirect object that is a dictionary whose `Filter` entry is the name
`/Standard` — whether or not it is the encryption descriptor — is skipped
whole by both walkers (the object, including every string nested in it, is
returned unchanged), and stream objects are never subject to the test. -/
theorem c10_skip_is_name_test_on_dicts (A : Cipher) (fileKey : List Nat)
    (entries : PDFEntries) (e : Ent)
    (hflt : entries.lookupKey "Filter" = some (.name "Standard")) :
    skipsCryptoWalk (.dict entries) = true
    ∧ encryptIndirectObject A fileKey (.dict entries) e = .ok (.dict entries, e)
    ∧ decryptIndirectObject A fileKey (.dict entries) = .ok (.dict entries)
    ∧ (∀ (d : PDFEntries) (c : List Nat), skipsCryptoWalk (.stream d c) = false) := by
  have hskip : skipsCryptoWalk (.dict entries) = true := by
    simp [skipsCryptoWalk, filterIsStandard, hflt]
  exact ⟨hskip, by simp [encryptIndirectObject, hskip],
    by simp [decryptIndirectObject, hskip], fun d c => rfl⟩

/-- Concrete evaluation of C10 on a non-descriptor dictionary carrying a
nested string and `Filter /Standard`. -/
theorem c10_skip_witness :
    skipsCryptoWalk (.dict (.cons "Filter" (.name "Standard")
      (.cons "S" (.string [1, 2, 3]) .nil))) = true
    ∧ encryptIndirectObject toyCipher (List.replicate 32 2)
        (.dict (.cons "Filter" (.name "Standard")
          (.cons "S" (.string [1, 2, 3]) .nil))) { pool := [9], off := 0 }
      = .ok (.dict (.cons "Filter" (.name "Standard")
          (.cons "S" (.string [1, 2, 3]) .nil)), { pool := [9], off := 0 })
    ∧ decryptIndirectObject toyCipher (List.replicate 32 2)
        (.dict (.cons "Filter" (.name "Standard")
          (.cons "S" (.string [1, 2, 3]) .nil)))
      = .ok (.dict (.cons "Filter" (.name "Standard")
          (.cons "S" (.string [1, 2, 3]) .nil)))
    ∧ (∀ (d : PDFEntries) (c : List Nat), skipsCryptoWalk (.stream d c) = false) :=
  c10_skip_is_name_test_on_dicts toyCipher (List.replicate 32 2)
    (.cons "Filter" (.name "Standard") (.cons "S" (.string [1, 2, 3]) .nil))
    { pool := [9], off := 0 } (by rfl)

/-- C9: the permissions seal is built from exactly one 16-byte block laid out
as the 4-byte little-endian permission bitmask (the bitmask taken as an
unsigned 32-bit value, two's complement for negatives such as the default -4),
then four 0xFF bytes, the metadata flag byte ('T' = 0x54 or 'F' = 0x46), the
fixed 3-byte tag 'a','d','b', and 4 random bytes; and that block is encrypted
as a single unpadded application of the block cipher directly under the
32-byte file encryption key. -/
theorem c9_permissions_seal_layout (A : Cipher) (H : List Nat → List Nat)
    (params : Rev5EncryptParams) (e0 : Ent) (K : Rev5Keys) (e2 : Ent)
    (hH32 : ∀ x, (H x).length = 32)
    (hEncLen : ∀ k x, x.length = 16 → (A.enc k x).length = 16)
    (hcomp : computeRev5Keys A H params e0 = .ok (K, e2)) :
    ∃ rnd, rnd.length = 4
      ∧ K.Perms = A.enc K.fileEncryptionKey
          (permsLELayout params.permissions ++ [255, 255, 255, 255]
            ++ [if params.encryptMetadata then 84 else 70] ++ [97, 100, 98] ++ rnd)
      ∧ (permsLELayout params.permissions ++ [255, 255, 255, 255]
          ++ [if params.encryptMetadata then 84 else 70] ++ [97, 100, 98] ++ rnd).length
          = 16
      ∧ K.fileEncryptionKey.length = 32 := by
  rw [computeRev5Keys_eval A H params e0 hH32 hEncLen] at hcomp
  injection hcomp with hpair
  injection hpair with hK hE
  subst hK
  refine ⟨kdfRnd4 e0, kdfRnd4_length e0, ?_, ?_, kdfFileKey_length e0⟩
  · show kdfPerms A params e0 = _
    rw [kdfPerms, permsBlockSrc_layout]
    rfl
  · rw [← permsBlockSrc_layout]
    exact permsBlockSrc_length _ _ _ (kdfRnd4_length e0)

/-- Concrete evaluation of C9 (default permissions -4, metadata on). -/
theorem c9_permissions_seal_witness :
    ∃ rnd, rnd.length = 4
      ∧ c4Keys.Perms = toyCipher.enc c4Keys.fileEncryptionKey
          (permsLELayout (-4) ++ [255, 255, 255, 255] ++ [if true then 84 else 70]
            ++ [97, 100, 98] ++ rnd)
      ∧ (permsLELayout (-4) ++ [255, 255, 255, 255] ++ [if true then 84 else 70]
          ++ [97, 100, 98] ++ rnd).length = 16
      ∧ c4Keys.fileEncryptionKey.length = 32 :=
  c9_permissions_seal_layout toyCipher toyHash
    { userPassword := [1], ownerPassword := [2], permissions := -4,
      encryptMetadata := true } cEnt c4Keys
    (match computeRev5Keys toyCipher toyHash
        { userPassword := [1], ownerPassword := [2], permissions := -4,
          encryptMetadata := true } cEnt with
      | .ok (_, e) => e
      | .error _ => { pool := [], off := 0 })
    toyHash_length toyCipher_enc_length (by rfl)

theorem getEncryptBytes_build_O (keys : Rev5Keys) (p : Int) (em : Bool) :
    getEncryptBytes (buildEncryptEntries keys p em) "O" = some keys.O := rfl

theorem getEncryptBytes_build_U (keys : Rev5Keys) (p : Int) (em : Bool) :
    getEncryptBytes (buildEncryptEntries keys p em) "U" = some keys.U := rfl

theorem getEncryptBytes_build_OE (keys : Rev5Keys) (p : Int) (em : Bool) :
    getEncryptBytes (buildEncryptEntries keys p em) "OE" = some keys.OE := rfl

theorem getEncryptBytes_build_UE (keys : Rev5Keys) (p : Int) (em : Bool) :
    getEncryptBytes (buildEncryptEntries keys p em) "UE" = some keys.UE := rfl

theorem getEncryptBytes_build_Perms (keys : Rev5Keys) (p : Int) (em : Bool) :
    getEncryptBytes (buildEncryptEntries keys p em) "Perms" = some keys.Perms := rfl

/-- C8: every successful encryptPDF call produces a descriptor whose fields
have the fixed lengths: O and U are exactly 48 bytes, OE and UE exactly
32 bytes, and Perms exactly 16 bytes. -/
theorem c8_descriptor_field_lengths (A : Cipher) (H : List Nat → List Nat)
    (doc : Doc) (u : List Nat) (oPw : Option (List Nat)) (opts : EncryptOptions)
    (e0 : Ent) (outDoc : Doc) (eOut : Ent)
    (hH32 : ∀ x, (H x).length = 32)
    (hEncLen : ∀ k x, x.length = 16 → (A.enc k x).length = 16)
    (hDecEnc : ∀ k x, x.length = 16 → A.dec k (A.enc k x) = x)
    (henc : encryptPDF A H doc u oPw opts e0 = .ok (outDoc, eOut)) :
    ∃ i entries, outDoc.trailerEncrypt = some i
      ∧ outDoc.objects[i]? = some (.dict entries)
      ∧ ∃ bO bU bOE bUE bP,
        getEncryptBytes entries "O" = some bO ∧ bO.length = 48
        ∧ getEncryptBytes entries "U" = some bU ∧ bU.length = 48
        ∧ getEncryptBytes entries "OE" = some bOE ∧ bOE.length = 32
        ∧ getEncryptBytes entries "UE" = some bUE ∧ bUE.length = 32
        ∧ getEncryptBytes entries "Perms" = some bP ∧ bP.length = 16 := by
  obtain ⟨objs, e3, hwalk, _⟩ := walkRtAll A (kdfFileKey (encEntropy doc e0))
    (kdfFileKey_length _) hEncLen hDecEnc doc.objects (kdfEntF (encEntropy doc e0))
  rw [encryptPDF_eval A H doc u oPw opts e0 objs e3 hH32 hEncLen hwalk] at henc
  injection henc with hpair
  injection hpair with hD hE
  subst hD
  refine ⟨objs.length, buildEncryptEntries
    (kdfKeys A H (encParams u oPw opts) (encEntropy doc e0))
    (opts.permissions.getD (-4)) (opts.encryptMetadata.getD true), rfl,
    by simp [buildEncryptDict],
    kdfO H (encParams u oPw opts) (encEntropy doc e0),
    kdfU H (encParams u oPw opts) (encEntropy doc e0),
    kdfOE A H (encParams u oPw opts) (encEntropy doc e0),
    kdfUE A H (encParams u oPw opts) (encEntropy doc e0),
    kdfPerms A (encParams u oPw opts) (encEntropy doc e0),
    getEncryptBytes_build_O _ _ _, kdfO_length H _ _ hH32,
    getEncryptBytes_build_U _ _ _, kdfU_length H _ _ hH32,
    getEncryptBytes_build_OE _ _ _, kdfOE_length A H _ _ hEncLen,
    getEncryptBytes_build_UE _ _ _, kdfUE_length A H _ _ hEncLen,
    getEncryptBytes_build_Perms _ _ _, kdfPerms_length A _ _ hEncLen⟩

/-- Concrete evaluation of C8 on the toy pipeline. -/
theorem c8_descriptor_field_lengths_witness :
    ∃ i entries, c2EncDoc.trailerEncrypt = some i
      ∧ c2EncDoc.objects[i]? = some (.dict entries)
      ∧ ∃ bO bU bOE bUE bP,
        getEncryptBytes entries "O" = some bO ∧ bO.length = 48
        ∧ getEncryptBytes entries "U" = some bU ∧ bU.length = 48
        ∧ getEncryptBytes entries "OE" = some bOE ∧ bOE.length = 32
        ∧ getEncryptBytes entries "UE" = some bUE ∧ bUE.length = 32
        ∧ getEncryptBytes entries "Perms" = some bP ∧ bP.length = 16 :=
  c8_descriptor_field_lengths toyCipher toyHash cDoc [1] (some [2]) cOpts cEnt
    c2EncDoc c2EncEnt toyHash_length toyCipher_enc_length toyCipher_dec_enc
    (by rfl)

/-- C6: computeRev5Keys binds the owner record to the user record: with
U the fully formed 48-byte user material computed first, the stored owner
hash is `H(ownerPwd ∥ ownerValidationSalt ∥ U)` and the owner wrapping key is
`H(ownerPwd ∥ ownerKeySalt ∥ U)` (the latter stated through the OE wrapping
equation); consequently owner-password recovery, which recomputes both
quantities over the stored U, recovers the file key. -/
theorem c6_owner_record_binds_user_material (A : Cipher)
    (H : List Nat → List Nat) (params : Rev5EncryptParams) (e0 : Ent)
    (K : Rev5Keys) (e2 : Ent)
    (hH32 : ∀ x, (H x).length = 32)
    (hEncLen : ∀ k x, x.length = 16 → (A.enc k x).length = 16)
    (hDecLen : ∀ k x, x.length = 16 → (A.dec k x).length = 16)
    (hDecEnc : ∀ k x, x.length = 16 → A.dec k (A.enc k x) = x)
    (ho : params.ownerPassword ≠ [])
    (hcomp : computeRev5Keys A H params e0 = .ok (K, e2))
    (hcoll : H (preparePassword params.ownerPassword ++ (K.U.drop 32).take 8)
        = H (preparePassword params.userPassword ++ (K.U.drop 32).take 8) →
      preparePassword params.ownerPassword = preparePassword params.userPassword) :
    K.U.length = 48
    ∧ K.U = H (preparePassword params.userPassword ++ (K.U.drop 32).take 8)
        ++ (K.U.drop 32).take 8 ++ (K.U.drop 40).take 8
    ∧ K.O.take 32 = H (preparePassword params.ownerPassword
        ++ (K.O.drop 32).take 8 ++ K.U)
    ∧ aes256CbcEncryptNoPadding A
        (H (preparePassword params.ownerPassword ++ (K.O.drop 40).take 8 ++ K.U))
        zero16 K.fileEncryptionKey = .ok K.OE
    ∧ deriveFileKeyFromPassword A H params.ownerPassword K.U K.O K.OE K.UE
        = some K.fileEncryptionKey := by
  rw [computeRev5Keys_eval A H params e0 hH32 hEncLen] at hcomp
  injection hcomp with hpair
  injection hpair with hK hE
  subst hK
  have hopwd : kdfOwnerPwd params = preparePassword params.ownerPassword := by
    unfold kdfOwnerPwd
    rw [if_neg ho]
  have hUvs := kdfU_valSalt H params e0 hH32
  have hUks := kdfU_keySalt H params e0 hH32
  have hOvs := kdfO_valSalt H params e0 hH32
  have hOks := kdfO_keySalt H params e0 hH32
  have hcoll2 : H (preparePassword params.ownerPassword ++ kdfUVS e0)
      = H (kdfUserPwd params ++ kdfUVS e0) →
      preparePassword params.ownerPassword = kdfUserPwd params := by
    intro hx
    apply hcoll
    show H (preparePassword params.ownerPassword ++ ((kdfU H params e0).drop 32).take 8)
      = H (preparePassword params.userPassword ++ ((kdfU H params e0).drop 32).take 8)
    rw [hUvs]
    exact hx
  simp only [kdfKeys] at hcoll ⊢
  refine ⟨kdfU_length H params e0 hH32, ?_, ?_, ?_, ?_⟩
  · rw [hUvs, hUks]
    simp [kdfU, kdfUserPwd]
  · rw [hOvs, kdfO_take32 H params e0 hH32, hopwd]
  · rw [hOks, ← hopwd,
      aes256CbcEncryptNoPadding_eval A _ zero16 _ hEncLen (hH32 _) zero16_length 2
        (by rw [kdfFileKey_length])]
    rfl
  · exact deriveFileKey_owner A H params e0 hH32 hEncLen hDecLen hDecEnc ho hcoll2

/-- Concrete evaluation of C6 on the toy pipeline. -/
theorem c6_owner_record_binds_user_material_witness :
    c4Keys.U.length = 48
    ∧ c4Keys.U = toyHash (preparePassword [1] ++ (c4Keys.U.drop 32).take 8)
        ++ (c4Keys.U.drop 32).take 8 ++ (c4Keys.U.drop 40).take 8
    ∧ c4Keys.O.take 32 = toyHash (preparePassword [2]
        ++ (c4Keys.O.drop 32).take 8 ++ c4Keys.U)
    ∧ aes256CbcEncryptNoPadding toyCipher
        (toyHash (preparePassword [2] ++ (c4Keys.O.drop 40).take 8 ++ c4Keys.U))
        zero16 c4Keys.fileEncryptionKey = .ok c4Keys.OE
    ∧ deriveFileKeyFromPassword toyCipher toyHash [2] c4Keys.U c4Keys.O
        c4Keys.OE c4Keys.UE = some c4Keys.fileEncryptionKey :=
  c6_owner_record_binds_user_material toyCipher toyHash
    { userPassword := [1], ownerPassword := [2], permissions := -4,
      encryptMetadata := true } cEnt c4Keys
    (match computeRev5Keys toyCipher toyHash
        { userPassword := [1], ownerPassword := [2], permissions := -4,
          encryptMetadata := true } cEnt with
      | .ok (_, e) => e
      | .error _ => { pool := [], off := 0 })
    toyHash_length toyCipher_enc_length toyCipher_dec_length toyCipher_dec_enc
    (by decide) (by rfl) (by decide)

/-- C4: corruption is not conflated with a wrong password in decryptPDF's
error surface: (a) when a password-material or wrapped-key field has other
than its structurally required length, decryptPDF fails with the
`invalidEncryptLengths` corruption outcome, which is distinct from
`wrongPassword`; (b) once key recovery has succeeded (the password matched a
validation hash and a key was returned), decryptPDF can never report
`wrongPassword` — a cipher decrypt failing after that point surfaces as the
corruption-class error it raised. -/
theorem c4_corruption_not_conflated_with_wrong_password (A : Cipher)
    (H : List Nat → List Nat) (doc : Doc) (w : List Nat) (i : Nat)
    (entries : PDFEntries) (bO bU bOE bUE : List Nat)
    (href : doc.trailerEncrypt = some i)
    (hdict : doc.objects[i]? = some (.dict entries))
    (hR : dictNumberOrZero entries "R" = 5)
    (hV : dictNumberOrZero entries "V" = 5)
    (hO : getEncryptBytes entries "O" = some bO)
    (hU : getEncryptBytes entries "U" = some bU)
    (hOE : getEncryptBytes entries "OE" = some bOE)
    (hUE : getEncryptBytes entries "UE" = some bUE) :
    (¬ (bO.length = 48 ∧ bU.length = 48 ∧ bOE.length = 32 ∧ bUE.length = 32) →
      decryptPDF A H doc w = .error .invalidEncryptLengths
        ∧ PDFError.invalidEncryptLengths ≠ PDFError.wrongPassword)
    ∧ (∀ fk, deriveFileKeyFromPassword A H w bU bO bOE bUE = some fk →
        decryptPDF A H doc w ≠ .error .wrongPassword) := by
  constructor
  · intro hbad
    refine ⟨?_, by simp⟩
    simp only [decryptPDF, href, hdict, hR, hV, hO, hU, hOE, hUE]
    rw [if_neg (by simp), if_pos (by tauto)]
  · intro fk hderive hcontra
    simp only [decryptPDF, href, hdict, hR, hV, hO, hU, hOE, hUE] at hcontra
    rw [if_neg (by simp)] at hcontra
    by_cases hlen : bO.length ≠ 48 ∨ bU.length ≠ 48 ∨ bOE.length ≠ 32 ∨ bUE.length ≠ 32
    · rw [if_pos hlen] at hcontra
      simp at hcontra
    · rw [if_neg hlen, hderive] at hcontra
      dsimp only at hcontra
      cases hwalk : decryptAllObjects A fk doc.objects with
      | ok objs2 =>
        rw [hwalk] at hcontra
        exact Except.noConfusion hcontra
      | error err =>
        rw [hwalk] at hcontra
        dsimp only at hcontra
        injection hcontra with herr
        exact decryptAllObjects_error_ne_wrongPassword A fk doc.objects err hwalk herr

/-- Concrete evaluation of both parts of C4: a descriptor with a 47-byte O
field fails with the corruption outcome, and a document whose descriptor is
valid (so key recovery succeeds) but whose stream payload is corrupt never
fails with `wrongPassword`. -/
theorem c4_corruption_witness :
    decryptPDF toyCipher toyHash c4BadLenDoc [7] = .error .invalidEncryptLengths
    ∧ decryptPDF toyCipher toyHash c4CorruptDoc [1] ≠ .error .wrongPassword := by
  constructor
  · exact ((c4_corruption_not_conflated_with_wrong_password toyCipher toyHash
      c4BadLenDoc [7] 0 _ (List.replicate 47 1) (List.replicate 48 2)
      (List.replicate 32 3) (List.replicate 32 4) (by rfl) (by rfl) (by rfl)
      (by rfl) (by rfl) (by rfl) (by rfl) (by rfl)).1 (by decide)).1
  · exact (c4_corruption_not_conflated_with_wrong_password toyCipher toyHash
      c4CorruptDoc [1] 1 (buildEncryptEntries c4Keys (-4) true) c4Keys.O c4Keys.U
      c4Keys.OE c4Keys.UE (by rfl) (by rfl) (by rfl) (by rfl)
      (getEncryptBytes_build_O _ _ _) (getEncryptBytes_build_U _ _ _)
      (getEncryptBytes_build_OE _ _ _) (getEncryptBytes_build_UE _ _ _)).2
      c4Keys.fileEncryptionKey (by rfl)

/-- C2: decrypting the output of encryptPDF with a password that matches
neither the user validation hash nor the owner validation hash fails with the
uniform `wrongPassword` outcome (key recovery returns no key). -/
theorem c2_wrong_password_uniform_failure (A : Cipher)
    (H : List Nat → List Nat) (doc : Doc) (u o w : List Nat)
    (opts : EncryptOptions) (e0 : Ent) (encDoc : Doc) (eEnc : Ent)
    (hH32 : ∀ x, (H x).length = 32)
    (hEncLen : ∀ k x, x.length = 16 → (A.enc k x).length = 16)
    (hDecEnc : ∀ k x, x.length = 16 → A.dec k (A.enc k x) = x)
    (henc : encryptPDF A H doc u (some o) opts e0 = .ok (encDoc, eEnc))
    (hw1 : H (preparePassword w ++ kdfUVS (encEntropy doc e0))
        ≠ H (preparePassword u ++ kdfUVS (encEntropy doc e0)))
    (hw2 : H (preparePassword w ++ kdfOVS (encEntropy doc e0)
          ++ kdfU H (encParams u (some o) opts) (encEntropy doc e0))
        ≠ H (kdfOwnerPwd (encParams u (some o) opts)
          ++ kdfOVS (encEntropy doc e0)
          ++ kdfU H (encParams u (some o) opts) (encEntropy doc e0))) :
    decryptPDF A H encDoc w = .error .wrongPassword := by
  obtain ⟨objs, e3, hwalk, _⟩ := walkRtAll A (kdfFileKey (encEntropy doc e0))
    (kdfFileKey_length _) hEncLen hDecEnc doc.objects (kdfEntF (encEntropy doc e0))
  rw [encryptPDF_eval A H doc u (some o) opts e0 objs e3 hH32 hEncLen hwalk] at henc
  injection henc with hpair
  injection hpair with hD hE
  subst hD
  rw [decryptPDF_on_encrypted A H (encParams u (some o) opts)
    (encEntropy doc e0) objs _ _ _ w hH32 hEncLen]
  rw [deriveFileKey_none A H (encParams u (some o) opts) (encEntropy doc e0) w
    hH32 hw1 hw2]

/-- Concrete evaluation of C2: password [3] against a document encrypted with
user password [1] and owner password [2]. -/
theorem c2_wrong_password_witness :
    decryptPDF toyCipher toyHash c2EncDoc [3] = .error .wrongPassword :=
  c2_wrong_password_uniform_failure toyCipher toyHash cDoc [1] [2] [3] cOpts
    cEnt c2EncDoc c2EncEnt toyHash_length toyCipher_enc_length toyCipher_dec_enc
    (by rfl) (by decide) (by decide)

/-- C1 as stated is false for an empty owner password: encryptPDF accepts the
password pair ([1], empty), but decrypting its output with the empty owner
password fails with wrongPassword instead of reproducing the document
(computeRev5Keys falls back to the user password when the owner password is
empty, so the empty string matches neither validation hash). -/
theorem c1_empty_owner_password_cex :
    (encryptPDF toyCipher toyHash cDoc [1] (some []) cOpts cEnt).isOk = true
    ∧ decryptPDF toyCipher toyHash c1CexEncDoc [] = .error .wrongPassword := by
  constructor
  · rfl
  · rfl

/-- C1 (amended): for every document, user password u, non-empty owner
password o and permission bitmask p, decrypting encryptPDF's output with u
yields a document whose payload contents (stream bytes and string values,
compared through the `stripTag` payload normal form) equal those of the
original document byte for byte, and the same holds when decrypting with o.
(An empty owner password falls back to u at encryption time, which is the one
case the original claim excludes; `hcoll` is the standard assumption that the
digest does not collide on the two user-validation inputs.) -/
theorem c1_round_trip_amended (A : Cipher) (H : List Nat → List Nat)
    (doc : Doc) (u o : List Nat) (p : Int) (e0 : Ent)
    (hH32 : ∀ x, (H x).length = 32)
    (hEncLen : ∀ k x, x.length = 16 → (A.enc k x).length = 16)
    (hDecLen : ∀ k x, x.length = 16 → (A.dec k x).length = 16)
    (hDecEnc : ∀ k x, x.length = 16 → A.dec k (A.enc k x) = x)
    (ho : o ≠ [])
    (hcoll : H (preparePassword o ++ kdfUVS (encEntropy doc e0))
        = H (preparePassword u ++ kdfUVS (encEntropy doc e0)) →
      preparePassword o = preparePassword u) :
    ∃ encDoc eEnc docU docO,
      encryptPDF A H doc u (some o)
          { permissions := some p, encryptMetadata := none } e0
        = .ok (encDoc, eEnc)
      ∧ decryptPDF A H encDoc u = .ok docU
      ∧ decryptPDF A H encDoc o = .ok docO
      ∧ (docU.objects.take doc.objects.length).map stripTag
          = doc.objects.map stripTag
      ∧ (docO.objects.take doc.objects.length).map stripTag
          = doc.objects.map stripTag := by
  obtain ⟨objs, e3, hwalk, objs3, hdec, hstrip, hlen2⟩ := walkRtAll A
    (kdfFileKey (encEntropy doc e0)) (kdfFileKey_length _) hEncLen hDecEnc
    doc.objects (kdfEntF (encEntropy doc e0))
  have henc := encryptPDF_eval A H doc u (some o)
    { permissions := some p, encryptMetadata := none } e0 objs e3 hH32 hEncLen hwalk
  have hone : decryptAllObjects A (kdfFileKey (encEntropy doc e0))
      [buildEncryptDict (kdfKeys A H
          (encParams u (some o) { permissions := some p, encryptMetadata := none })
          (encEntropy doc e0)) p true]
      = .ok [buildEncryptDict (kdfKeys A H
          (encParams u (some o) { permissions := some p, encryptMetadata := none })
          (encEntropy doc e0)) p true] := by
    simp [decryptAllObjects, buildEncryptDict_decrypt_skipped]
  have hdecAll := decryptAllObjects_append A (kdfFileKey (encEntropy doc e0))
    objs _ objs3 _ hdec hone
  have hu : deriveFileKeyFromPassword A H u
      (kdfU H (encParams u (some o) { permissions := some p, encryptMetadata := none })
        (encEntropy doc e0))
      (kdfO H (encParams u (some o) { permissions := some p, encryptMetadata := none })
        (encEntropy doc e0))
      (kdfOE A H (encParams u (some o) { permissions := some p, encryptMetadata := none })
        (encEntropy doc e0))
      (kdfUE A H (encParams u (some o) { permissions := some p, encryptMetadata := none })
        (encEntropy doc e0))
      = some (kdfFileKey (encEntropy doc e0)) :=
    deriveFileKey_user A H
      (encParams u (some o) { permissions := some p, encryptMetadata := none })
      (encEntropy doc e0) hH32 hEncLen hDecLen hDecEnc
  have hoD : deriveFileKeyFromPassword A H o
      (kdfU H (encParams u (some o) { permissions := some p, encryptMetadata := none })
        (encEntropy doc e0))
      (kdfO H (encParams u (some o) { permissions := some p, encryptMetadata := none })
        (encEntropy doc e0))
      (kdfOE A H (encParams u (some o) { permissions := some p, encryptMetadata := none })
        (encEntropy doc e0))
      (kdfUE A H (encParams u (some o) { permissions := some p, encryptMetadata := none })
        (encEntropy doc e0))
      = some (kdfFileKey (encEntropy doc e0)) :=
    deriveFileKey_owner A H
      (encParams u (some o) { permissions := some p, encryptMetadata := none })
      (encEntropy doc e0) hH32 hEncLen hDecLen hDecEnc ho hcoll
  have hlen3 : objs3.length = doc.objects.length := by
    have h := congrArg List.length hstrip
    simpa using h
  have htake : ((objs3 ++ [buildEncryptDict (kdfKeys A H
      (encParams u (some o) { permissions := some p, encryptMetadata := none })
      (encEntropy doc e0)) p true]).take doc.objects.length).map stripTag
      = doc.objects.map stripTag := by
    rw [List.take_left' hlen3, hstrip]
  refine ⟨_, _,
    ({ objects := objs3 ++ [buildEncryptDict (kdfKeys A H
        (encParams u (some o) { permissions := some p, encryptMetadata := none })
        (encEntropy doc e0)) p true],
       trailerEncrypt := none, trailerID := encTrailerID doc e0 } : Doc),
    ({ objects := objs3 ++ [buildEncryptDict (kdfKeys A H
        (encParams u (some o) { permissions := some p, encryptMetadata := none })
        (encEntropy doc e0)) p true],
       trailerEncrypt := none, trailerID := encTrailerID doc e0 } : Doc),
    henc, ?_, ?_, htake, htake⟩
  · dsimp only [Option.getD]
    rw [decryptPDF_on_encrypted A H
      (encParams u (some o) { permissions := some p, encryptMetadata := none })
      (encEntropy doc e0) objs p true (encTrailerID doc e0) u hH32 hEncLen, hu]
    dsimp only
    rw [hdecAll]
  · dsimp only [Option.getD]
    rw [decryptPDF_on_encrypted A H
      (encParams u (some o) { permissions := some p, encryptMetadata := none })
      (encEntropy doc e0) objs p true (encTrailerID doc e0) o hH32 hEncLen, hoD]
    dsimp only
    rw [hdecAll]

/-- Concrete evaluation of the amended C1: encrypt the toy document with user
password [1] and owner password [2], then decrypt with each password. -/
theorem c1_round_trip_witness :
    ∃ encDoc eEnc docU docO,
      encryptPDF toyCipher toyHash cDoc [1] (some [2])
          { permissions := some (-4), encryptMetadata := none } cEnt
        = .ok (encDoc, eEnc)
      ∧ decryptPDF toyCipher toyHash encDoc [1] = .ok docU
      ∧ decryptPDF toyCipher toyHash encDoc [2] = .ok docO
      ∧ (docU.objects.take cDoc.objects.length).map stripTag
          = cDoc.objects.map stripTag
      ∧ (docO.objects.take cDoc.objects.length).map stripTag
          = cDoc.objects.map stripTag :=
  c1_round_trip_amended toyCipher toyHash cDoc [1] [2] (-4) cEnt
    toyHash_length toyCipher_enc_length toyCipher_dec_length toyCipher_dec_enc
    (by decide) (by decide)
